import Mathlib

/-!
Shallow embedding of the fetch/flush pipeline of
`airtable_backup_improved.py` (class `AirtableBackup`): the paginated
record fetcher, the attachment downloader, the multi-format sink writers
and the backup orchestrator, together with theorems checking the
specification's claims about them.
-/

namespace AirtableBackup

/-- An attachment object embedded in a record field: a dict carrying a
`url` and a `filename` key, as produced by the Airtable API. -/
structure Attachment where
  url : String
  filename : String
deriving DecidableEq, Repr

/-- A scalar field value: string, number, bool or null. -/
inductive Scalar where
  | str (s : String)
  | int (n : Int)
  | bool (b : Bool)
  | null
deriving DecidableEq, Repr

/-- One element of a list-valued field: a scalar, or an attachment dict
(the source tests `isinstance(item, dict) and 'url' in item`). -/
inductive Item where
  | scalar (v : Scalar)
  | att (a : Attachment)
deriving DecidableEq, Repr

/-- A field value: a scalar or an ordered list of items. -/
inductive Value where
  | scalar (v : Scalar)
  | list (items : List Item)
deriving DecidableEq, Repr

/-- A record `{id, fields}`; `fields` is an insertion-ordered mapping
(Python dict) from field names to values, keys distinct. -/
structure Record where
  id : String
  fields : List (String × Value)
deriving DecidableEq, Repr

/-- Python `str` of a scalar. -/
def Scalar.pyStr : Scalar → String
  | .str s => s
  | .int n => toString n
  | .bool b => if b then "True" else "False"
  | .null => "None"

/-- Python `str` of one list element (`str(item)` in `write_csv`); the
dict rendering elides escape sequences, which no claim depends on. -/
def Item.pyStr : Item → String
  | .scalar v => v.pyStr
  | .att a =>
      "\x7b\x27url\x27: \x27" ++ a.url ++ "\x27, \x27filename\x27: \x27"
        ++ a.filename ++ "\x27\x7d"

/-- Python dict insertion `d[k] = v`: overwrite in place when the key is
present, append otherwise. -/
def dictInsert (d : List (String × α)) (k : String) (v : α) : List (String × α) :=
  match d with
  | [] => [(k, v)]
  | (k', v') :: rest => if k' = k then (k, v) :: rest else (k', v') :: dictInsert rest k v

/-- Flattening of one field value in `write_csv` (lines 295-305): a list
whose first element is an attachment dict becomes the `'; '`-join of the
elements' urls, any other list the `'; '`-join of `str(item)`, a scalar
becomes `str(value)` with `None` rendered as the empty string.  (In the
attachment branch the source calls `item.get('url', '')`, which raises on
a non-dict element; that mixed case, reached by no claim, is modelled as
the empty string.) -/
def flattenValue : Value → String
  | .scalar .null => ""
  | .scalar v => v.pyStr
  | .list items =>
      match items with
      | .att _ :: _ =>
          String.intercalate "; " (items.map fun
            | .att a => a.url
            | .scalar _ => "")
      | _ => String.intercalate "; " (items.map Item.pyStr)

/-- The flattened row `write_csv` builds for one record: a dict built
from `id ↦ record['id']` by inserting `field ↦ flattened value` for each
field in order. -/
def flatRecord (r : Record) : List (String × String) :=
  r.fields.foldl (fun acc fv => dictInsert acc fv.1 (flattenValue fv.2)) [("id", r.id)]

/-- The set `all_fieldnames` of keys occurring in any flattened record,
modelled as the duplicate-free list of keys in encounter order (the sort
below erases the set's iteration order anyway). -/
def allFieldnames (records : List Record) : List String :=
  ((records.map fun r => (flatRecord r).map Prod.fst).flatten).dedup

/-- Python string comparison, `a <= b`, on the underlying characters:
code-point lexicographic. -/
def pyCharLe : List Char → List Char → Bool
  | [], _ => true
  | _ :: _, [] => false
  | a :: as, b :: bs =>
      if a < b then true
      else if b < a then false
      else pyCharLe as bs

/-- Python string comparison `a <= b`. -/
def pyStrLe (a b : String) : Bool := pyCharLe a.toList b.toList

/-- Python `sorted` on a list of strings.  On the duplicate-free lists it
is applied to here, a sorted permutation is unique, so the choice of
sorting algorithm is immaterial; insertion sort is used because it
evaluates by kernel reduction. -/
def pySorted (l : List String) : List String :=
  List.insertionSort (fun a b => pyStrLe a b = true) l

/-- A produced CSV file: header row and data rows. -/
structure CsvFile where
  header : List String
  rows : List (List String)
deriving DecidableEq, Repr

/-- The cell `csv.DictWriter` emits for a column: the row dict's value
when the key is present, the empty string otherwise (`restval` default). -/
def csvCell (flat : List (String × String)) (col : String) : String :=
  (flat.lookup col).getD ""

/-- Model of `write_csv` (lines 284-316): returns without creating a file
when the batch is empty; otherwise writes the header
`sorted(all_fieldnames)` followed by one row per record in batch order. -/
def write_csv (records : List Record) : Option CsvFile :=
  if records.isEmpty then none
  else
    let fieldnames := pySorted (allFieldnames records)
    some { header := fieldnames,
           rows := records.map fun r => fieldnames.map (csvCell (flatRecord r)) }

/-- The spec's two-record end-to-end example, page 1 record. -/
def rec1 : Record := { id := "rec1", fields := [("Name", .scalar (.str "a"))] }

/-- The spec's two-record end-to-end example, page 2 record. -/
def rec2 : Record :=
  { id := "rec2",
    fields := [("Name", .scalar (.str "b")),
               ("Tags", .list [.scalar (.str "x"), .scalar (.str "y")])] }

/-- The record `rec1` as re-flushed with an updated field value, for the
upsert scenario. -/
def rec1b : Record := { id := "rec1", fields := [("Name", .scalar (.str "a2"))] }

/-- Python `repr` of a scalar (quote escaping elided; no claim depends
on it). -/
def Scalar.pyRepr : Scalar → String
  | .str s => "\x27" ++ s ++ "\x27"
  | .int n => toString n
  | .bool b => if b then "True" else "False"
  | .null => "None"

/-- Python `repr` of one list element. -/
def Item.pyRepr : Item → String
  | .scalar v => v.pyRepr
  | .att a =>
      "\x7b\x27url\x27: \x27" ++ a.url ++ "\x27, \x27filename\x27: \x27"
        ++ a.filename ++ "\x27\x7d"

/-- Python `str` of a list value (`str(value)` in `write_sqlite`). -/
def pyStrList (items : List Item) : String :=
  "[" ++ String.intercalate ", " (items.map Item.pyRepr) ++ "]"

/-- A value stored in a SQLite cell.  (SQLite type-affinity coercions are
not modelled; no claim depends on them.) -/
abbrev DbVal := Scalar

/-- Table-name sanitization in `write_sqlite` (lines 324-327): keep only
alphanumerics and underscore, strip, and put a `table_` in front when the
result is empty or starts with a digit. -/
def sqliteSafeTableName (name : String) : String :=
  let kept := ((name.toList.filter fun c => c.isAlphanum || c = '_').asString).trim
  match kept.toList with
  | [] => "table_" ++ kept
  | c :: _ => if c.isDigit then "table_" ++ kept else kept

/-- One SQLite table: its declared columns, and its rows keyed by the
`id` primary-key value, each row a mapping from columns to cells. -/
structure SqliteTable where
  cols : List String
  rows : List (String × List (String × DbVal))
deriving DecidableEq, Repr

/-- A SQLite database file: its tables by name. -/
structure SqliteDb where
  tables : List (String × SqliteTable)
deriving DecidableEq, Repr

/-- The freshly created database file of a run (the `.db` files live in
the run's new timestamped output directory). -/
def SqliteDb.empty : SqliteDb := { tables := [] }

/-- The cell value the `sqlite_utils` path stores for one field value
(lines 339-345): a list becomes the `", "`-join of its attachment urls
when any are present, else Python `str` of the list; a scalar is kept. -/
def processValueUtils : Value → DbVal
  | .scalar v => v
  | .list items =>
      let urls := items.filterMap fun
        | .att a => some a.url
        | .scalar _ => none
      if urls.isEmpty then .str (pyStrList items)
      else .str (String.intercalate ", " urls)

/-- Per-record preprocessing of the `sqlite_utils` path (lines 334-347):
copy the record's fields, set `fields[id] = record[id]`, then process
every value. -/
def processFieldsUtils (r : Record) : List (String × DbVal) :=
  (dictInsert r.fields "id" (.scalar (.str r.id))).map fun fv =>
    (fv.1, processValueUtils fv.2)

/-- The merge one `sqlite_utils` upsert performs on an existing row: the
provided columns are updated in place and the other columns kept. -/
def mergeRow (old fields : List (String × DbVal)) : List (String × DbVal) :=
  fields.foldl (fun acc fv => dictInsert acc fv.1 fv.2) old

/-- One `sqlite_utils` upsert keyed on `pk`: when a row with the key
exists, the given columns are updated in place and the others kept;
otherwise the row is appended.  With `alter=True` new columns are added
to the declared column list. -/
def SqliteTable.upsertUtils (t : SqliteTable) (pk : String)
    (fields : List (String × DbVal)) : SqliteTable :=
  { cols := fields.foldl (fun cs fv => if fv.1 ∈ cs then cs else cs ++ [fv.1]) t.cols
    rows :=
      if (t.rows.lookup pk).isSome then
        t.rows.map fun row => if row.1 = pk then (pk, mergeRow row.2 fields) else row
      else t.rows ++ [(pk, fields)] }

/-- The `sqlite_utils` branch of `write_sqlite` (lines 329-349):
`db[safe_table_name].upsert_all(processed_records, pk=id, alter=True)`,
one upsert per record in batch order. -/
def write_sqlite_utils (db : SqliteDb) (records : List Record)
    (tableName : String) : SqliteDb :=
  let safe := sqliteSafeTableName tableName
  let t0 := (db.tables.lookup safe).getD { cols := [], rows := [] }
  let t1 := records.foldl (fun t r => t.upsertUtils r.id (processFieldsUtils r)) t0
  { tables := dictInsert db.tables safe t1 }

/-- The union of raw field names across the batch (`all_fieldnames` of
the sqlite3 fallback, lines 355-358), as a duplicate-free list. -/
def sqliteFieldnames (records : List Record) : List String :=
  ((records.map fun r => r.fields.map Prod.fst).flatten).dedup

/-- Can sqlite3 bind this value as a parameter?  A list raises
`InterfaceError`. -/
def Value.bindable : Value → Bool
  | .scalar _ => true
  | .list _ => false

/-- The cell actually stored for a bindable value (the list case is
unreachable when `bindable` held). -/
def Value.toCell : Value → DbVal
  | .scalar v => v
  | .list _ => .null

/-- The row dict of the sqlite3 fallback for one record (lines 367-374):
the record's fields, `fields[id] = record[id]`, and every batch
fieldname the record lacks filled with `None`. -/
def fallbackRowDict (fieldnames : List String) (r : Record) :
    List (String × Value) :=
  fieldnames.foldl
    (fun acc f => if (acc.lookup f).isSome then acc else dictInsert acc f (.scalar .null))
    (dictInsert r.fields "id" (.scalar (.str r.id)))

/-- The row the sqlite3 fallback stores for one record: its row dict with
every cell bound. -/
def fallbackRow (fieldnames : List String) (r : Record) : List (String × DbVal) :=
  (fallbackRowDict fieldnames r).map fun fv => (fv.1, fv.2.toCell)

/-- One `INSERT OR REPLACE`: the row conflicting on the primary key is
deleted and the new row inserted. -/
def SqliteTable.insertOrReplace (t : SqliteTable) (pk : String)
    (row : List (String × DbVal)) : SqliteTable :=
  { t with rows := (t.rows.filter fun r0 => r0.1 ≠ pk) ++ [(pk, row)] }

/-- The sqlite3 fallback branch of `write_sqlite` (lines 350-383):
`CREATE TABLE IF NOT EXISTS` with `id` plus the sorted batch fieldnames,
then one `INSERT OR REPLACE` per record.  An insert naming a column the
existing table lacks, or binding a list value, raises: the flush's
transaction is then never committed, so the database file is unchanged. -/
def write_sqlite_fallback (db : SqliteDb) (records : List Record)
    (tableName : String) : SqliteDb :=
  let safe := sqliteSafeTableName tableName
  let fieldnames := sqliteFieldnames records
  let t0 := (db.tables.lookup safe).getD
    { cols := "id" :: pySorted fieldnames, rows := [] }
  let rowsOk := records.all fun r =>
    (fallbackRowDict fieldnames r).all fun fv =>
      t0.cols.contains fv.1 && fv.2.bindable
  if rowsOk then
    let t1 := records.foldl (fun t r => t.insertOrReplace r.id (fallbackRow fieldnames r)) t0
    { tables := dictInsert db.tables safe t1 }
  else db

/-- Model of `write_sqlite` (lines 318-386): returns at once on an empty
batch; otherwise the `sqlite_utils` path when the capability is
available, else the sqlite3 fallback.  The whole body runs inside
try/except, so a write error is caught and logged there. -/
def write_sqlite (sqliteUtilsAvailable : Bool) (db : SqliteDb)
    (records : List Record) (tableName : String) : SqliteDb :=
  if records.isEmpty then db
  else if sqliteUtilsAvailable then write_sqlite_utils db records tableName
  else write_sqlite_fallback db records tableName

/-- One output format of the multi-format sink. -/
inductive Format where
  | json | ndjson | yaml | csv | sqlite | parquet
deriving DecidableEq, Repr

/-- The observable outcome of one progressive flush: which formats had
their file written, which formats had a write error caught and logged
inside the flush, and the format whose uncaught error escaped the flush,
if any. -/
structure FlushResult where
  written : List Format
  logged : List Format
  raised : Option Format
deriving DecidableEq, Repr

/-- Is format `f` due to write a file in this flush?  Parquet needs
pandas; the CSV, SQLite and Parquet writers return at once on an empty
batch. -/
def formatEnabled (pandasAvailable : Bool) (records : List Record) :
    Format → Bool
  | .csv => !records.isEmpty
  | .sqlite => !records.isEmpty
  | .parquet => pandasAvailable && !records.isEmpty
  | _ => true

/-- Model of `write_progressive_output` (lines 240-273), with an error
oracle: `fails f = true` means the write of format `f` raises (an I/O
error, say).  The per-format file contents are modelled by `write_csv`
and `write_sqlite` above; this definition models the control flow.  JSON,
NDJSON and YAML are written unconditionally and outside any try/except,
as is CSV for a non-empty batch, so a failure there escapes the flush and
the remaining formats are skipped; only `write_sqlite` and
`write_parquet` catch their own errors (and both return at once on an
empty batch, before anything can fail). -/
def write_progressive_output (pandasAvailable : Bool) (fails : Format → Bool)
    (records : List Record) : FlushResult :=
  if fails .json then { written := [], logged := [], raised := some .json }
  else if fails .ndjson then { written := [.json], logged := [], raised := some .ndjson }
  else if fails .yaml then { written := [.json, .ndjson], logged := [], raised := some .yaml }
  else if !records.isEmpty && fails .csv then
    { written := [.json, .ndjson, .yaml], logged := [], raised := some .csv }
  else
    let w4 := if records.isEmpty then [Format.json, .ndjson, .yaml]
              else [Format.json, .ndjson, .yaml, .csv]
    let ws := if !records.isEmpty && !fails .sqlite then w4 ++ [.sqlite] else w4
    let ls := if !records.isEmpty && fails .sqlite then [Format.sqlite] else []
    if pandasAvailable && !records.isEmpty then
      if fails .parquet then { written := ws, logged := ls ++ [.parquet], raised := none }
      else { written := ws ++ [.parquet], logged := ls, raised := none }
    else { written := ws, logged := ls, raised := none }

/-- The oracle of a flush in which no write fails. -/
def noFails : Format → Bool := fun _ => false

/-- The error-isolation property C1 claims of the code: in every flush,
every enabled format whose own write does not fail gets written, whichever
other format fails. -/
def errorIsolationClaim : Prop :=
  ∀ (pandasAvailable : Bool) (fails : Format → Bool) (records : List Record) (f : Format),
    fails f = false → formatEnabled pandasAvailable records f = true →
      f ∈ (write_progressive_output pandasAvailable fails records).written

/-- One answer of the paginated records endpoint: a failing request, or a
page carrying records and an optional next-page cursor. -/
inductive PageResponse where
  | failure
  | page (records : List Record) (offset : Option String)
deriving Repr

/-- What `fetch_records` comes to: the record list it returns, the table
errors it appended to `stats[errors]`, the number of page requests it
made, and the number of progressive flushes it performed. -/
structure FetchResult where
  records : List Record
  errors : List String
  requests : Nat
  flushes : Nat
deriving DecidableEq, Repr

/-- The error entry `fetch_records` appends for a failed table (line
205); the string of the caught exception is abstracted. -/
def tableErrorEntry (tableName : String) : String :=
  "Table " ++ tableName ++ ": request failed"

/-- The retry bound `MAX_RETRIES` declared in `config.py` (line 28) —
never imported by `airtable_backup_improved.py`. -/
def MAX_RETRIES : Nat := 3

/-- The page loop of `fetch_records` (lines 158-206).  `server k` is the
response to the `k`-th page request (0-based); `reqs` counts requests
made so far, `acc` is the accumulated record list.  A failing request is
caught by the table-level except block, which appends one error entry and
returns the accumulated records — no retry happens.  A successful page is
appended to the accumulator, attachments are processed and the whole
accumulator is flushed, and the loop continues exactly while the response
carries a cursor (Python falsiness: a missing or empty `offset` ends the
loop).  `fuel` bounds the recursion; every theorem supplies enough for
the fuel branch never to be taken. -/
def fetch_records_aux (tableName : String) (server : Nat → PageResponse) :
    Nat → Nat → List Record → FetchResult
  | 0, reqs, acc => { records := acc, errors := [], requests := reqs, flushes := reqs }
  | fuel + 1, reqs, acc =>
    match server reqs with
    | .failure =>
        { records := acc, errors := [tableErrorEntry tableName],
          requests := reqs + 1, flushes := reqs }
    | .page pageRecords offset =>
        match offset with
        | none =>
            { records := acc ++ pageRecords, errors := [],
              requests := reqs + 1, flushes := reqs + 1 }
        | some s =>
            if s = "" then
              { records := acc ++ pageRecords, errors := [],
                requests := reqs + 1, flushes := reqs + 1 }
            else fetch_records_aux tableName server fuel (reqs + 1) (acc ++ pageRecords)

/-- Model of `fetch_records`, starting the loop with no cursor and an
empty accumulator. -/
def fetch_records (tableName : String) (server : Nat → PageResponse)
    (fuel : Nat) : FetchResult :=
  fetch_records_aux tableName server fuel 0 []

/-- The server described by a finite list of pages: request `k` is
answered with page `k`, requests beyond the list fail. -/
def serverOfPages (pages : List (List Record × Option String)) :
    Nat → PageResponse :=
  fun k =>
    match pages[k]? with
    | some p => .page p.1 p.2
    | none => .failure

/-- The retry behaviour C2 claims of the code, formalised on its weakest
observable: after a page-request failure at least one retry of the
request is issued (the claim says up to `MAX_RETRIES` with backoff), so
at least two requests are made when the first one fails and fuel allows. -/
def fetchRetriesClaim : Prop :=
  ∀ (tableName : String) (server : Nat → PageResponse) (fuel : Nat),
    2 ≤ fuel → server 0 = .failure →
      2 ≤ (fetch_records tableName server fuel).requests

/-- Sanitization of an attachment filename (line 223): keep only
alphanumerics, space, hyphen, underscore and dot, then `rstrip()` the
trailing whitespace.  `Char.isAlphanum` models Python `str.isalnum`
(identical on ASCII; no claim needs the non-ASCII alphanumerics Python
also keeps). -/
def attachmentSafeFilename (filename : String) : String :=
  (List.rdropWhile Char.isWhitespace
    (filename.toList.filter fun c =>
      c.isAlphanum || c = ' ' || c = '-' || c = '_' || c = '.')).asString

/-- Joining a `pathlib.Path` with a name: appending an empty name leaves
the path unchanged (`Path(f) / "" == Path(f)`). -/
def pathJoin (folder name : String) : String :=
  if name = "" then folder else folder ++ "/" ++ name

/-- The guarantee C7 claims of the code, formalised: the destination
filename `download_attachment` uses is never empty (a fallback name being
substituted when sanitization degenerates). -/
def sanitizedNameNeverEmpty : Prop :=
  ∀ filename : String, attachmentSafeFilename filename ≠ ""

/-- The filesystem-and-counter state `download_attachment` sees: the set
of existing paths, and the run-wide `attachments_downloaded` counter. -/
structure AttachState where
  files : List String
  attachments_downloaded : Nat
deriving DecidableEq, Repr

/-- How one attempted download would end: success, failure before the
destination file is created (`requests.get` or `raise_for_status`
raises), or failure mid-stream after it was created. -/
inductive DownloadOutcome where
  | ok | failEarly | failMid
deriving DecidableEq, Repr

/-- Model of `download_attachment` (lines 219-238): sanitize the
filename, skip entirely when the destination path exists, otherwise
attempt the download.  The whole body is inside try/except, so a failure
is logged and never escapes.  The counter is incremented exactly on a
fully successful download.  Returns the new state and whether a download
was attempted. -/
def download_attachment (outcome : DownloadOutcome) (folder filename : String)
    (st : AttachState) : AttachState × Bool :=
  let filepath := pathJoin folder (attachmentSafeFilename filename)
  if filepath ∈ st.files then (st, false)
  else
    match outcome with
    | .ok =>
        ({ files := filepath :: st.files,
           attachments_downloaded := st.attachments_downloaded + 1 }, true)
    | .failEarly => (st, true)
    | .failMid => ({ st with files := filepath :: st.files }, true)

/-- Run statistics (`self.stats`, lines 70-76). -/
structure Stats where
  bases_processed : Nat
  tables_processed : Nat
  records_processed : Nat
  attachments_downloaded : Nat
  errors : List String
deriving DecidableEq, Repr

/-- The statistics at the start of a run. -/
def Stats.init : Stats :=
  { bases_processed := 0, tables_processed := 0, records_processed := 0,
    attachments_downloaded := 0, errors := [] }

/-- What one table's `fetch_records` call came to: the number of records
it returned, and whether it caught a page failure (in which case it
appended its one error entry). -/
structure TableRun where
  name : String
  recordsReturned : Nat
  failed : Bool
deriving DecidableEq, Repr

/-- An abort trigger of `backup_workspace`: a top-level enumeration
failure (an uncaught exception from `fetch_base_ids` / `fetch_tables`),
or an operator `KeyboardInterrupt`. -/
inductive RunError where
  | enumerationFailure
  | keyboardInterrupt
deriving DecidableEq, Repr

/-- One base of a run: when `fetch_tables` succeeds and no interrupt
arrives, the list of its table runs; otherwise the abort trigger together
with the tables of this base that completed before it. -/
structure BaseRun where
  id : String
  name : String
  outcome : Except (List TableRun × RunError) (List TableRun)

/-- A finalization side effect of `backup_workspace`. -/
inductive FinalAction where
  | saveMetadata
  | generateReport
deriving DecidableEq, Repr

/-- The observable outcome of `backup_workspace`: the final statistics,
the finalization actions performed in order, and the error it re-raised
to its caller, if any. -/
structure RunResult where
  stats : Stats
  actions : List FinalAction
  propagated : Option RunError

/-- The per-table block of `backup_workspace` (lines 538-554):
`fetch_records` returns normally even after a caught page failure, having
already appended its one error entry; `records_processed` grows by the
returned count and `tables_processed` is incremented unconditionally —
for a failed table too. -/
def processTable (st : Stats) (t : TableRun) : Stats :=
  { st with
    errors := st.errors ++ (if t.failed then [tableErrorEntry t.name] else [])
    records_processed := st.records_processed + t.recordsReturned
    tables_processed := st.tables_processed + 1 }

/-- One base's pass of the orchestrator loop (lines 523-557): process
every table, then increment `bases_processed`. -/
def processBase (st : Stats) (tables : List TableRun) : Stats :=
  let st := tables.foldl processTable st
  { st with bases_processed := st.bases_processed + 1 }

/-- The orchestrator loop over the bases.  An abort while on a base stops
the loop with the statistics accumulated so far (the aborting base's
completed tables included, its `bases_processed` increment not reached);
the except blocks of `backup_workspace` then run `generate_report()` —
and only it — before re-raising.  When the loop completes,
`save_metadata` and then `generate_report` run and nothing propagates. -/
def backup_go : List BaseRun → Stats → RunResult
  | [], st =>
      { stats := st, actions := [.saveMetadata, .generateReport], propagated := none }
  | b :: rest, st =>
      match b.outcome with
      | .error (done, e) =>
          { stats := done.foldl processTable st,
            actions := [.generateReport], propagated := some e }
      | .ok tables => backup_go rest (processBase st tables)

/-- Model of `backup_workspace` (lines 514-577): when `fetch_base_ids`
itself raises, the loop never starts and the except block runs
`generate_report()` — not `save_metadata` — and re-raises; otherwise the
loop over the bases runs. -/
def backup_workspace (basesOutcome : Except RunError (List BaseRun)) : RunResult :=
  match basesOutcome with
  | .error e =>
      { stats := Stats.init, actions := [.generateReport], propagated := some e }
  | .ok bases => backup_go bases Stats.init

/-- The statistics after processing a list of bases that all enumerate
successfully (the error case is never reached under that hypothesis). -/
def runStats : List BaseRun → Stats → Stats
  | [], st => st
  | b :: rest, st =>
      match b.outcome with
      | .error _ => st
      | .ok tables => runStats rest (processBase st tables)

/-- The tables of a base whose enumeration succeeded (`[]` in the error
case, which the lemmas using this never reach). -/
def BaseRun.tablesOk (b : BaseRun) : List TableRun :=
  match b.outcome with
  | .ok ts => ts
  | .error _ => []

/-- A run of one base with one table whose fetch failed. -/
def failingTasksRun : List BaseRun :=
  [{ id := "bas1", name := "Base1",
     outcome := .ok [{ name := "Tasks", recordsReturned := 0, failed := true }] }]

/-- The B base of the continue-on-error scenario below. -/
def scenarioBaseB : BaseRun :=
  { id := "basB", name := "B",
    outcome := .ok [{ name := "T2", recordsReturned := 0, failed := true },
                    { name := "T3", recordsReturned := 1, failed := false }] }

/-- The continue-on-error scenario of spec §8: bases A, B, C, the fetch
of one table of B exhausting its page attempts. -/
def scenarioBases : List BaseRun :=
  [{ id := "basA", name := "A",
     outcome := .ok [{ name := "T1", recordsReturned := 2, failed := false }] },
   scenarioBaseB,
   { id := "basC", name := "C",
     outcome := .ok [{ name := "T4", recordsReturned := 3, failed := false }] }]

/-- The counting C3 claims of the code, formalised: in a fully enumerated
run, `tables_processed` equals the number of tables whose fetch
succeeded, the failed ones being excluded. -/
def tablesProcessedExcludesFailed : Prop :=
  ∀ bases : List BaseRun,
    (∀ b ∈ bases, ∃ ts, b.outcome = .ok ts) →
      (backup_workspace (.ok bases)).stats.tables_processed =
        ((bases.map fun b =>
            match b.outcome with
            | .ok ts => (ts.filter fun t => !t.failed).length
            | .error _ => 0).sum)

/-- The finalization C8 claims of the code, formalised: every aborting
run still attempts both the metadata files and the summary report before
the failure propagates. -/
def abortStillSavesMetadata : Prop :=
  ∀ basesOutcome : Except RunError (List BaseRun),
    (backup_workspace basesOutcome).propagated ≠ none →
      FinalAction.saveMetadata ∈ (backup_workspace basesOutcome).actions ∧
      FinalAction.generateReport ∈ (backup_workspace basesOutcome).actions

/-! ### Theorems -/

theorem pyCharLe_iff_le : ∀ as bs : List Char, pyCharLe as bs = true ↔ as ≤ bs
  | [], bs => by simp [pyCharLe, List.nil_le]
  | a :: as, [] => by
      simp only [pyCharLe, Bool.false_eq_true, false_iff]
      exact not_le.mpr (List.nil_lt_cons a as)
  | a :: as, b :: bs => by
      simp only [pyCharLe]
      rcases lt_trichotomy a b with h | h | h
      · simp only [if_pos h, true_iff]
        exact le_of_lt (List.Lex.rel h)
      · subst h
        rw [if_neg (lt_irrefl a), if_neg (lt_irrefl a)]
        rw [pyCharLe_iff_le as bs]
        constructor
        · exact List.cons_le_cons a
        · intro hle
          by_contra hnot
          have h1 : bs < as := not_le.mp hnot
          have h2 : a :: bs < a :: as := List.Lex.cons h1
          exact absurd hle (not_le.mpr h2)
      · rw [if_neg (asymm h), if_pos h]
        simp only [Bool.false_eq_true, false_iff]
        exact not_le.mpr (List.Lex.rel h)

theorem pyStrLe_iff_le (a b : String) : pyStrLe a b = true ↔ a ≤ b := by
  rw [pyStrLe, pyCharLe_iff_le, String.le_iff_toList_le]

instance : IsTotal String (fun a b => pyStrLe a b = true) :=
  ⟨fun a b => by
    rcases le_total a b with h | h
    · exact Or.inl ((pyStrLe_iff_le a b).mpr h)
    · exact Or.inr ((pyStrLe_iff_le b a).mpr h)⟩

instance : IsTrans String (fun a b => pyStrLe a b = true) :=
  ⟨fun a b c hab hbc => (pyStrLe_iff_le a c).mpr
    (le_trans ((pyStrLe_iff_le a b).mp hab) ((pyStrLe_iff_le b c).mp hbc))⟩

theorem pySorted_sorted (l : List String) : (pySorted l).Sorted (· ≤ ·) :=
  (List.sorted_insertionSort (fun a b => pyStrLe a b = true) l).imp
    fun h => (pyStrLe_iff_le _ _).mp h

theorem mem_pySorted (l : List String) (m : String) : m ∈ pySorted l ↔ m ∈ l :=
  List.mem_insertionSort _

theorem mem_keys_dictInsert {β : Type} {d : List (String × β)} {k m : String} {v : β} :
    m ∈ (dictInsert d k v).map Prod.fst ↔ m = k ∨ m ∈ d.map Prod.fst := by
  induction d with
  | nil => simp [dictInsert]
  | cons hd tl ih =>
      obtain ⟨k1, v1⟩ := hd
      by_cases h : k1 = k
      · subst h
        simp [dictInsert]
      · simp only [dictInsert, if_neg h, List.map_cons, List.mem_cons, ih]
        tauto

theorem lookup_eq_none_iff {β : Type} (d : List (String × β)) (k : String) :
    d.lookup k = none ↔ k ∉ d.map Prod.fst := by
  induction d with
  | nil => simp
  | cons hd tl ih =>
      obtain ⟨k1, v1⟩ := hd
      by_cases h : k = k1
      · subst h
        simp [List.lookup]
      · rw [List.lookup, show (k == k1) = false from beq_eq_false_iff_ne.mpr h]
        simpa [h] using ih

theorem lookup_isSome_iff {β : Type} (d : List (String × β)) (k : String) :
    (d.lookup k).isSome = true ↔ k ∈ d.map Prod.fst := by
  rw [← not_iff_not, ← lookup_eq_none_iff]
  cases d.lookup k <;> simp

theorem mem_keys_foldl_dictInsert (fields : List (String × Value)) :
    ∀ (init : List (String × String)) (m : String),
      m ∈ ((fields.foldl (fun acc fv => dictInsert acc fv.1 (flattenValue fv.2)) init).map
          Prod.fst) ↔
        m ∈ init.map Prod.fst ∨ m ∈ fields.map Prod.fst := by
  induction fields with
  | nil => simp
  | cons f rest ih =>
      intro init m
      simp only [List.foldl_cons, ih, mem_keys_dictInsert, List.map_cons, List.mem_cons]
      tauto

theorem mem_keys_flatRecord (r : Record) (m : String) :
    m ∈ (flatRecord r).map Prod.fst ↔ m = "id" ∨ m ∈ r.fields.map Prod.fst := by
  rw [flatRecord, mem_keys_foldl_dictInsert]
  simp

/-- C4: for every non-empty record batch written to the flat CSV format,
the header is the sorted union of the field names over all records of
the batch plus the `id` column; the rows follow the batch order; a record
lacking one of the header's fields gets an empty cell for it rather than
an omitted column; and on the spec's two-record example the header is
`["Name", "Tags", "id"]` and rec1's Tags cell is empty. -/
theorem c4_csv_schema_union (records : List Record) (hne : records ≠ []) :
    ∃ file, write_csv records = some file ∧
      file.header.Sorted (· ≤ ·) ∧
      (∀ f, f ∈ file.header ↔ f = "id" ∨ ∃ r ∈ records, f ∈ r.fields.map Prod.fst) ∧
      file.rows = records.map (fun r => file.header.map (csvCell (flatRecord r))) ∧
      (∀ r ∈ records, ∀ f, f ∈ file.header → f ≠ "id" → f ∉ r.fields.map Prod.fst →
        csvCell (flatRecord r) f = "") ∧
      write_csv [rec1, rec2] =
        some { header := ["Name", "Tags", "id"],
               rows := [["a", "", "rec1"], ["b", "x; y", "rec2"]] } := by
  have hne2 : records.isEmpty = false := by
    cases records with
    | nil => exact absurd rfl hne
    | cons a l => rfl
  have hw : write_csv records =
      some { header := pySorted (allFieldnames records),
             rows := records.map fun r =>
               (pySorted (allFieldnames records)).map (csvCell (flatRecord r)) } := by
    rw [write_csv, hne2]
    rfl
  refine ⟨_, hw, ?_, ?_, rfl, ?_, by decide⟩
  · exact pySorted_sorted _
  · intro f
    rw [mem_pySorted, allFieldnames, List.mem_dedup, List.mem_flatten]
    constructor
    · rintro ⟨keys, hkeys, hf⟩
      obtain ⟨r, hr, rfl⟩ := List.mem_map.mp hkeys
      rcases (mem_keys_flatRecord r f).mp hf with h | h
      · exact Or.inl h
      · exact Or.inr ⟨r, hr, h⟩
    · rintro (rfl | ⟨r, hr, hf⟩)
      · obtain ⟨r, hr⟩ := List.exists_mem_of_ne_nil records hne
        exact ⟨(flatRecord r).map Prod.fst, List.mem_map.mpr ⟨r, hr, rfl⟩,
          (mem_keys_flatRecord r "id").mpr (Or.inl rfl)⟩
      · exact ⟨(flatRecord r).map Prod.fst, List.mem_map.mpr ⟨r, hr, rfl⟩,
          (mem_keys_flatRecord r f).mpr (Or.inr hf)⟩
  · intro r _ f _ hfid hfr
    have hnk : f ∉ (flatRecord r).map Prod.fst := by
      rw [mem_keys_flatRecord]
      tauto
    rw [csvCell, (lookup_eq_none_iff _ _).mpr hnk]
    rfl

/-- Closed instance of C4 at the spec's two-record example. -/
theorem c4_csv_schema_union_witness :
    ∃ file, write_csv [rec1, rec2] = some file ∧ file.header.Sorted (· ≤ ·) := by
  obtain ⟨file, h1, h2, -⟩ := c4_csv_schema_union [rec1, rec2] (by decide)
  exact ⟨file, h1, h2⟩

/-- C7 is false on the code: no fallback name is substituted when
sanitization degenerates to the empty string — the filename `"???"`
sanitizes to `""` and is used as is. -/
theorem c7_counterexample : ¬ sanitizedNameNeverEmpty :=
  fun h => h "???" (by decide)

/-- C7 amended: sanitization keeps only alphanumerics, spaces, hyphens,
underscores and dots (a subsequence of the input) and strips trailing
whitespace only (`rstrip`), but when the result degenerates to the empty
string no fallback is substituted: the destination path is then the
attachments folder itself, which exists, so the download is silently
skipped. -/
theorem c7_amended_sanitize_no_fallback (filename folder : String)
    (st : AttachState) (o : DownloadOutcome) (hfolder : folder ∈ st.files) :
    (∀ c ∈ (attachmentSafeFilename filename).toList,
        c.isAlphanum = true ∨ c = ' ' ∨ c = '-' ∨ c = '_' ∨ c = '.') ∧
    (attachmentSafeFilename filename).toList.Sublist filename.toList ∧
    (∀ c, (attachmentSafeFilename filename).toList.getLast? = some c →
        c.isWhitespace = false) ∧
    (attachmentSafeFilename filename = "" →
        download_attachment o folder filename st = (st, false)) ∧
    attachmentSafeFilename "???" = "" := by
  have htl : (attachmentSafeFilename filename).toList =
      List.rdropWhile Char.isWhitespace
        (filename.toList.filter fun c =>
          c.isAlphanum || c = ' ' || c = '-' || c = '_' || c = '.') :=
    List.toList_asString _
  refine ⟨?_, ?_, ?_, ?_, by decide⟩
  · intro c hc
    rw [htl] at hc
    have hmem : c ∈ filename.toList.filter fun c =>
        c.isAlphanum || c = ' ' || c = '-' || c = '_' || c = '.' :=
      (List.rdropWhile_prefix _ _).sublist.mem hc
    have := (List.mem_filter.mp hmem).2
    simpa [or_assoc] using this
  · rw [htl]
    exact ((List.rdropWhile_prefix _ _).sublist.trans (List.filter_sublist _))
  · intro c hc
    rw [htl] at hc
    have hne : List.rdropWhile Char.isWhitespace
        (filename.toList.filter fun c =>
          c.isAlphanum || c = ' ' || c = '-' || c = '_' || c = '.') ≠ [] := by
      intro h0
      rw [h0] at hc
      simp at hc
    rw [List.getLast?_eq_getLast _ hne] at hc
    have hcl := Option.some.inj hc
    have hnot := List.rdropWhile_last_not Char.isWhitespace _ hne
    rw [hcl] at hnot
    simpa using hnot
  · intro hempty
    rw [download_attachment.eq_def]
    have hpath : pathJoin folder (attachmentSafeFilename filename) = folder := by
      rw [hempty, pathJoin]
      rfl
    rw [hpath, if_pos hfolder]

/-- Closed instance of C7's amended statement. -/
theorem c7_amended_sanitize_no_fallback_witness :
    download_attachment DownloadOutcome.ok "att" "???" { files := ["att"], attachments_downloaded := 0 } =
      ({ files := ["att"], attachments_downloaded := 0 }, false) := by
  obtain ⟨-, -, -, h4, h5⟩ := c7_amended_sanitize_no_fallback "???" "att"
    { files := ["att"], attachments_downloaded := 0 } DownloadOutcome.ok (by decide)
  exact h4 h5

/-- C6: a second request for the same (url, filename) pair against a
destination where the sanitized path already exists performs no second
download attempt and leaves the state unchanged; across the two requests
exactly one download is attempted and `attachments_downloaded` grows by
exactly one. -/
theorem c6_attachment_idempotent (folder filename : String) (st : AttachState)
    (o2 : DownloadOutcome)
    (hnew : pathJoin folder (attachmentSafeFilename filename) ∉ st.files) :
    (∀ (st2 : AttachState) (o : DownloadOutcome),
        pathJoin folder (attachmentSafeFilename filename) ∈ st2.files →
          download_attachment o folder filename st2 = (st2, false)) ∧
    (download_attachment .ok folder filename st).2 = true ∧
    (download_attachment .ok folder filename st).1.attachments_downloaded =
      st.attachments_downloaded + 1 ∧
    download_attachment o2 folder filename (download_attachment .ok folder filename st).1 =
      ((download_attachment .ok folder filename st).1, false) := by
  have hskip : ∀ (st2 : AttachState) (o : DownloadOutcome),
      pathJoin folder (attachmentSafeFilename filename) ∈ st2.files →
        download_attachment o folder filename st2 = (st2, false) := by
    intro st2 o hmem
    rw [download_attachment.eq_def, if_pos hmem]
  have h1 : download_attachment .ok folder filename st =
      ({ files := pathJoin folder (attachmentSafeFilename filename) :: st.files,
         attachments_downloaded := st.attachments_downloaded + 1 }, true) := by
    rw [download_attachment.eq_def, if_neg hnew]
  refine ⟨hskip, ?_, ?_, ?_⟩
  · rw [h1]
  · rw [h1]
  · rw [h1]
    exact hskip _ o2 (List.mem_cons_self _ _)

/-- Closed instance of C6 on a fresh state. -/
theorem c6_attachment_idempotent_witness :
    (download_attachment DownloadOutcome.ok "att" "f.png"
        { files := [], attachments_downloaded := 0 }).1.attachments_downloaded = 1 := by
  obtain ⟨-, -, h3, -⟩ := c6_attachment_idempotent "att" "f.png"
    { files := [], attachments_downloaded := 0 } DownloadOutcome.ok (by decide)
  exact h3

/-- C10: a flush of an empty batch writes exactly the JSON, NDJSON and
YAML files (each holding an empty document) and neither the CSV, SQLite
nor Parquet file; the CSV and SQLite writers return leaving their
targets untouched. -/
theorem c10_empty_batch_flush (pa u : Bool) (db : SqliteDb) (tname : String) :
    write_progressive_output pa noFails [] =
      { written := [.json, .ndjson, .yaml], logged := [], raised := none } ∧
    write_csv [] = none ∧
    write_sqlite u db [] tname = db := by
  refine ⟨?_, rfl, rfl⟩
  cases pa <;> rfl

/-- C1 is false on the code: only the SQLite and Parquet writers run in
their own try/except; a failing JSON write escapes the flush and the
remaining formats — the enabled CSV among them — are not written for that
flush. -/
theorem c1_counterexample : ¬ errorIsolationClaim := by
  intro h
  have hc := h true (fun f => f == Format.json) [rec1] Format.csv (by decide) (by decide)
  exact absurd hc (by decide)

/-- C1 amended: per-format error isolation holds exactly for the SQLite
and Parquet writers.  When none of the four unguarded writes (JSON,
NDJSON, YAML, CSV) fails, no error escapes the flush, every enabled
format that does not itself fail is written, and a failing SQLite or
Parquet write is caught and logged while the other formats are still
written.  (A failure in JSON, NDJSON, YAML or CSV instead escapes and
skips the remaining formats, as the counterexample shows.) -/
theorem c1_amended_error_isolation (pa : Bool) (fails : Format → Bool)
    (records : List Record)
    (hj : fails .json = false) (hn : fails .ndjson = false)
    (hy : fails .yaml = false) (hc : fails .csv = false) :
    (write_progressive_output pa fails records).raised = none ∧
    (∀ f, formatEnabled pa records f = true → fails f = false →
        f ∈ (write_progressive_output pa fails records).written) ∧
    ((!records.isEmpty && fails .sqlite) = true →
        Format.sqlite ∈ (write_progressive_output pa fails records).logged) ∧
    ((pa && !records.isEmpty && fails .parquet) = true →
        Format.parquet ∈ (write_progressive_output pa fails records).logged) := by
  rw [write_progressive_output]
  simp only [hj, hn, hy, hc, Bool.and_false, Bool.false_eq_true, if_false]
  cases hre : records.isEmpty <;>
    cases hs : fails Format.sqlite <;>
      cases hp : fails Format.parquet <;>
        cases pa <;>
          simp_all [formatEnabled] <;>
            (intro f hf1 hf2; cases f <;> simp_all)

/-- Closed instance of C1's amended statement: a failing SQLite write is
logged and CSV is still written. -/
theorem c1_amended_error_isolation_witness :
    (write_progressive_output true (fun f => f == Format.sqlite) [rec1]).raised = none ∧
    Format.csv ∈ (write_progressive_output true (fun f => f == Format.sqlite) [rec1]).written ∧
    Format.sqlite ∈ (write_progressive_output true (fun f => f == Format.sqlite) [rec1]).logged := by
  obtain ⟨h1, h2, h3, -⟩ := c1_amended_error_isolation true (fun f => f == Format.sqlite)
    [rec1] (by decide) (by decide) (by decide) (by decide)
  exact ⟨h1, h2 Format.csv (by decide) (by decide), h3 (by decide)⟩

theorem fetch_records_aux_run_pages (tableName : String) (server : Nat → PageResponse)
    (pages : List (List Record × Option String)) :
    ∀ (fuel reqs : Nat) (acc : List Record),
      pages.length ≤ fuel →
      (∀ (k : Nat) (p0 : List Record × Option String), pages[k]? = some p0 → server (reqs + k) = .page p0.1 p0.2) →
      (∀ (k : Nat) (p0 : List Record × Option String), pages[k]? = some p0 → ∃ s, p0.2 = some s ∧ s ≠ "") →
      fetch_records_aux tableName server fuel reqs acc =
        fetch_records_aux tableName server (fuel - pages.length) (reqs + pages.length)
          (acc ++ (pages.map Prod.fst).flatten) := by
  induction pages with
  | nil =>
      intro fuel reqs acc _ _ _
      simp
  | cons p rest ih =>
      intro fuel reqs acc hf hagree hcursor
      rw [List.length_cons] at hf
      obtain ⟨fuel, rfl⟩ : ∃ m, fuel = m + 1 := ⟨fuel - 1, by omega⟩
      have h0 : server (reqs + 0) = .page p.1 p.2 := hagree 0 p (by simp)
      rw [Nat.add_zero] at h0
      obtain ⟨s, hs, hsne⟩ := hcursor 0 p (by simp)
      rw [fetch_records_aux]
      simp only [h0, hs, hsne, if_false]
      have hrest := ih fuel (reqs + 1) (acc ++ p.1) (by omega)
        (fun k p0 hk => by
          have := hagree (k + 1) p0 (by simpa using hk)
          rwa [show reqs + (k + 1) = reqs + 1 + k by omega] at this)
        (fun k p0 hk => hcursor (k + 1) p0 (by simpa using hk))
      rw [hrest]
      congr 1
      · rw [List.length_cons]
        omega
      · rw [List.length_cons]
        omega
      · simp

/-- C2 is false on the code: there is no retry at all — `MAX_RETRIES` in
`config.py` is declared but never imported by the backup module.  With a
server whose first request fails (a retry of which would succeed), the
fetch stops after that single request instead of retrying. -/
theorem c2_counterexample : ¬ fetchRetriesClaim := by
  intro h
  have h2 := h "Tasks" (serverOfPages []) 5 (by omega) rfl
  have h1 : (fetch_records "Tasks" (serverOfPages []) 5).requests = 1 := rfl
  omega

/-- C2 amended: there is no retry — the first failing page request
immediately terminates the fetch for that table, which returns exactly
the records accumulated from the earlier pages, appends exactly one
table-level error entry, makes no further request, and returns normally
to its caller (the exception never leaves table scope, the result being
an ordinary `FetchResult`). -/
theorem c2_amended_no_retry (tableName : String) (server : Nat → PageResponse)
    (pages : List (List Record × Option String)) (fuel : Nat)
    (hfuel : pages.length + 1 ≤ fuel)
    (hagree : ∀ (k : Nat) (p0 : List Record × Option String), pages[k]? = some p0 → server k = .page p0.1 p0.2)
    (hcursor : ∀ (k : Nat) (p0 : List Record × Option String), pages[k]? = some p0 → ∃ s, p0.2 = some s ∧ s ≠ "")
    (hfail : server pages.length = .failure) :
    fetch_records tableName server fuel =
      { records := (pages.map Prod.fst).flatten,
        errors := [tableErrorEntry tableName],
        requests := pages.length + 1,
        flushes := pages.length } := by
  rw [fetch_records, fetch_records_aux_run_pages tableName server pages fuel 0 []
    (by omega) (fun k p0 hk => by simpa using hagree k p0 hk) hcursor]
  obtain ⟨m, hm⟩ : ∃ m, fuel - pages.length = m + 1 := ⟨fuel - pages.length - 1, by omega⟩
  rw [hm, Nat.zero_add, fetch_records_aux, hfail]
  simp

/-- Closed instance of C2's amended statement: one good page, then a
failing request. -/
theorem c2_amended_no_retry_witness :
    fetch_records "Tasks" (serverOfPages [([rec1], some "cur2")]) 5 =
      { records := [rec1],
        errors := [tableErrorEntry "Tasks"],
        requests := 2,
        flushes := 1 } := by
  have h := c2_amended_no_retry "Tasks" (serverOfPages [([rec1], some "cur2")])
    [([rec1], some "cur2")] 5 (by decide)
    (by
      intro k p0 hk
      match k with
      | 0 =>
          simp at hk
          rw [← hk]
          rfl
      | n + 1 => simp at hk)
    (by
      intro k p0 hk
      match k with
      | 0 =>
          simp at hk
          exact ⟨"cur2", by rw [← hk], by decide⟩
      | n + 1 => simp at hk)
    rfl
  simpa using h

/-- C9: for every table fetch that runs to completion, the returned
record list is the concatenation of the server's pages in the order
received, preserving within-page order with no re-sorting; the loop makes
one request per page and stops exactly at the first response carrying no
cursor (Python falsiness: a missing — or empty — `offset`), flushing once
per page. -/
theorem c9_fetch_concatenates_pages (tableName : String) (server : Nat → PageResponse)
    (pages : List (List Record × Option String)) (lastRecords : List Record)
    (lastOffset : Option String) (fuel : Nat)
    (hfuel : pages.length + 1 ≤ fuel)
    (hagree : ∀ (k : Nat) (p0 : List Record × Option String), pages[k]? = some p0 → server k = .page p0.1 p0.2)
    (hcursor : ∀ (k : Nat) (p0 : List Record × Option String), pages[k]? = some p0 → ∃ s, p0.2 = some s ∧ s ≠ "")
    (hlast : server pages.length = .page lastRecords lastOffset)
    (hend : lastOffset = none ∨ lastOffset = some "") :
    fetch_records tableName server fuel =
      { records := (pages.map Prod.fst).flatten ++ lastRecords,
        errors := [],
        requests := pages.length + 1,
        flushes := pages.length + 1 } := by
  rw [fetch_records, fetch_records_aux_run_pages tableName server pages fuel 0 []
    (by omega) (fun k p0 hk => by simpa using hagree k p0 hk) hcursor]
  obtain ⟨m, hm⟩ : ∃ m, fuel - pages.length = m + 1 := ⟨fuel - pages.length - 1, by omega⟩
  rw [hm, Nat.zero_add, fetch_records_aux, hlast]
  rcases hend with rfl | rfl
  · simp
  · simp

/-- Closed instance of C9 on the spec's two-page example. -/
theorem c9_fetch_concatenates_pages_witness :
    fetch_records "Tasks" (serverOfPages [([rec1], some "cur2"), ([rec2], none)]) 5 =
      { records := [rec1, rec2],
        errors := [],
        requests := 2,
        flushes := 2 } := by
  have h := c9_fetch_concatenates_pages "Tasks"
    (serverOfPages [([rec1], some "cur2"), ([rec2], none)])
    [([rec1], some "cur2")] [rec2] none 5 (by decide)
    (by
      intro k p0 hk
      match k with
      | 0 =>
          simp at hk
          rw [← hk]
          rfl
      | n + 1 => simp at hk)
    (by
      intro k p0 hk
      match k with
      | 0 =>
          simp at hk
          exact ⟨"cur2", by rw [← hk], by decide⟩
      | n + 1 => simp at hk)
    rfl (Or.inl rfl)
  simpa using h

theorem foldl_processTable (tables : List TableRun) (st : Stats) :
    tables.foldl processTable st =
      { bases_processed := st.bases_processed,
        tables_processed := st.tables_processed + tables.length,
        records_processed := st.records_processed + (tables.map TableRun.recordsReturned).sum,
        attachments_downloaded := st.attachments_downloaded,
        errors := st.errors ++
          (tables.filter TableRun.failed).map fun t => tableErrorEntry t.name } := by
  induction tables generalizing st with
  | nil => simp
  | cons t rest ih =>
      rw [List.foldl_cons, ih]
      cases ht : t.failed <;>
        simp [processTable, ht, List.filter_cons, Stats.mk.injEq] <;>
          omega

theorem backup_go_ok (bases : List BaseRun) (st : Stats)
    (h : ∀ b ∈ bases, ∃ ts, b.outcome = .ok ts) :
    backup_go bases st =
      { stats := runStats bases st,
        actions := [.saveMetadata, .generateReport], propagated := none } := by
  induction bases generalizing st with
  | nil => rfl
  | cons b rest ih =>
      obtain ⟨ts, hts⟩ := h b (List.mem_cons_self _ _)
      rw [backup_go, runStats]
      simp only [hts]
      exact ih _ fun x hx => h x (List.mem_cons_of_mem _ hx)

theorem backup_go_append_ok (pre rest : List BaseRun) (st : Stats)
    (h : ∀ b ∈ pre, ∃ ts, b.outcome = .ok ts) :
    backup_go (pre ++ rest) st = backup_go rest (runStats pre st) := by
  induction pre generalizing st with
  | nil => rfl
  | cons b tl ih =>
      obtain ⟨ts, hts⟩ := h b (List.mem_cons_self _ _)
      rw [List.cons_append, backup_go, runStats]
      simp only [hts]
      exact ih _ fun x hx => h x (List.mem_cons_of_mem _ hx)

theorem runStats_formula (bases : List BaseRun) (st : Stats)
    (h : ∀ b ∈ bases, ∃ ts, b.outcome = .ok ts) :
    runStats bases st =
      { bases_processed := st.bases_processed + bases.length,
        tables_processed := st.tables_processed +
          (bases.map fun b => b.tablesOk.length).sum,
        records_processed := st.records_processed +
          (bases.map fun b => (b.tablesOk.map TableRun.recordsReturned).sum).sum,
        attachments_downloaded := st.attachments_downloaded,
        errors := st.errors ++
          (bases.map fun b =>
            (b.tablesOk.filter TableRun.failed).map fun t =>
              tableErrorEntry t.name).flatten } := by
  induction bases generalizing st with
  | nil => simp [runStats]
  | cons b rest ih =>
      obtain ⟨ts, hts⟩ := h b (List.mem_cons_self _ _)
      have htb : b.tablesOk = ts := by
        rw [BaseRun.tablesOk, hts]
      rw [runStats]
      simp only [hts]
      rw [ih _ fun x hx => h x (List.mem_cons_of_mem _ hx), processBase,
        foldl_processTable]
      simp [htb, Stats.mk.injEq, List.append_assoc]
      omega

/-- C3 is false on the code: `tables_processed` is incremented
unconditionally (line 552), also for a table whose fetch failed — the
failed table is not excluded from the counter. -/
theorem c3_counterexample : ¬ tablesProcessedExcludesFailed := by
  intro h
  have h1 := h failingTasksRun
    (by
      intro b hb
      simp [failingTasksRun] at hb
      subst hb
      exact ⟨_, rfl⟩)
  exact absurd h1 (by decide)

/-- C3 amended: in a fully enumerated run a failed table still increments
`tables_processed` (the counter counts every table, failed or not);
exactly one error entry naming the failed table is appended per failed
table; processing continues to the end of the run with nothing
propagated; and the base containing the failed table still increments
`bases_processed`.  On the spec's A/B/C scenario the error list is
exactly the one entry naming T2. -/
theorem c3_amended_failed_table_still_counted (bases : List BaseRun)
    (h : ∀ b ∈ bases, ∃ ts, b.outcome = .ok ts)
    (b : BaseRun) (t : TableRun) (hb : b ∈ bases) (ht : t ∈ b.tablesOk)
    (htf : t.failed = true) :
    (backup_workspace (.ok bases)).stats.tables_processed =
      (bases.map fun x => x.tablesOk.length).sum ∧
    (backup_workspace (.ok bases)).stats.errors =
      (bases.map fun x =>
        (x.tablesOk.filter TableRun.failed).map fun y =>
          tableErrorEntry y.name).flatten ∧
    tableErrorEntry t.name ∈ (backup_workspace (.ok bases)).stats.errors ∧
    (backup_workspace (.ok bases)).stats.bases_processed = bases.length ∧
    (backup_workspace (.ok bases)).propagated = none ∧
    (backup_workspace (.ok scenarioBases)).stats.errors =
      [tableErrorEntry "T2"] := by
  have hw : backup_workspace (.ok bases) =
      { stats := runStats bases Stats.init,
        actions := [.saveMetadata, .generateReport], propagated := none } := by
    rw [backup_workspace, backup_go_ok _ _ h]
  rw [hw, runStats_formula _ _ h]
  refine ⟨by simp [Stats.init], by simp [Stats.init], ?_, by simp [Stats.init], rfl, by decide⟩
  simp only [Stats.init, List.nil_append, List.mem_flatten]
  exact ⟨(b.tablesOk.filter TableRun.failed).map fun y => tableErrorEntry y.name,
    List.mem_map.mpr ⟨b, hb, rfl⟩,
    List.mem_map.mpr ⟨t, List.mem_filter.mpr ⟨ht, htf⟩, rfl⟩⟩

/-- Closed instance of C3's amended statement on the spec's scenario. -/
theorem c3_amended_failed_table_still_counted_witness :
    (backup_workspace (.ok scenarioBases)).stats.tables_processed = 4 ∧
    (backup_workspace (.ok scenarioBases)).stats.bases_processed = 3 := by
  obtain ⟨h1, -, -, h4, -, -⟩ := c3_amended_failed_table_still_counted scenarioBases
    (by
      intro b hb
      simp [scenarioBases, scenarioBaseB] at hb
      rcases hb with rfl | rfl | rfl
      · exact ⟨_, rfl⟩
      · exact ⟨_, rfl⟩
      · exact ⟨_, rfl⟩)
    scenarioBaseB
    { name := "T2", recordsReturned := 0, failed := true }
    (List.mem_cons_of_mem _ (List.mem_cons_self _ _))
    (List.mem_cons_self _ _) rfl
  rw [h1, h4]
  exact ⟨by decide, by decide⟩

/-- C8 is false on the code: the abort paths of `backup_workspace` (its
two except blocks, lines 570-577) run only `generate_report()` before
re-raising — `save_metadata` is not attempted on an aborted run. -/
theorem c8_counterexample : ¬ abortStillSavesMetadata := by
  intro h
  have h1 := (h (.error .enumerationFailure) (by simp [backup_workspace])).1
  simp [backup_workspace] at h1

/-- C8 amended: an aborting run — a top-level enumeration failure, an
enumeration failure at a base, or an operator interrupt — still produces
the summary report from exactly the statistics accumulated before the
failure and then re-raises the error to its caller, but does not attempt
the metadata files: `save_metadata` runs only when the loop completes,
before the report. -/
theorem c8_amended_abort_report_only (e : RunError) (pre : List BaseRun)
    (b : BaseRun) (post : List BaseRun) (done : List TableRun)
    (hpre : ∀ p ∈ pre, ∃ ts, p.outcome = .ok ts)
    (hb : b.outcome = .error (done, e)) :
    backup_workspace (.error e) =
      { stats := Stats.init, actions := [.generateReport], propagated := some e } ∧
    backup_workspace (.ok (pre ++ b :: post)) =
      { stats := done.foldl processTable (runStats pre Stats.init),
        actions := [.generateReport], propagated := some e } ∧
    (∀ bases : List BaseRun, (∀ p ∈ bases, ∃ ts, p.outcome = .ok ts) →
      (backup_workspace (.ok bases)).actions = [.saveMetadata, .generateReport] ∧
      (backup_workspace (.ok bases)).propagated = none) := by
  refine ⟨rfl, ?_, ?_⟩
  · rw [backup_workspace, backup_go_append_ok pre _ _ hpre, backup_go]
    simp only [hb]
  · intro bases hok
    rw [backup_workspace, backup_go_ok _ _ hok]
    exact ⟨rfl, rfl⟩

/-- Closed instance of C8's amended statement: an interrupt before any
base is processed yields a report, no metadata, and the interrupt
re-raised. -/
theorem c8_amended_abort_report_only_witness :
    backup_workspace (.error RunError.keyboardInterrupt) =
      { stats := Stats.init, actions := [.generateReport],
        propagated := some RunError.keyboardInterrupt } := by
  obtain ⟨h1, -, -⟩ := c8_amended_abort_report_only RunError.keyboardInterrupt []
    { id := "bas1", name := "B1", outcome := .error ([], RunError.keyboardInterrupt) }
    [] [] (by intro p hp; simp at hp) rfl
  exact h1

theorem lookup_cons_self {β : Type} (k : String) (v : β) (tl : List (String × β)) :
    (((k, v) :: tl).lookup k) = some v := by
  simp [List.lookup]

theorem lookup_cons_ne {β : Type} (k1 : String) (v : β) (tl : List (String × β))
    (k : String) (h : k ≠ k1) : (((k1, v) :: tl).lookup k) = tl.lookup k := by
  rw [List.lookup, show (k == k1) = false from beq_eq_false_iff_ne.mpr h]

theorem lookup_dictInsert_self {β : Type} (d : List (String × β)) (k : String) (v : β) :
    (dictInsert d k v).lookup k = some v := by
  induction d with
  | nil => simp [dictInsert, List.lookup]
  | cons hd tl ih =>
      obtain ⟨k1, v1⟩ := hd
      by_cases h : k1 = k
      · subst h
        simp [dictInsert, List.lookup]
      · rw [dictInsert, if_neg h, List.lookup,
          show (k == k1) = false from beq_eq_false_iff_ne.mpr (Ne.symm h)]
        exact ih

theorem lookup_dictInsert_ne {β : Type} (d : List (String × β)) (k m : String) (v : β)
    (h : m ≠ k) : (dictInsert d k v).lookup m = d.lookup m := by
  induction d with
  | nil =>
      simp [dictInsert, List.lookup, show (m == k) = false from beq_eq_false_iff_ne.mpr h]
  | cons hd tl ih =>
      obtain ⟨k1, v1⟩ := hd
      by_cases h1 : k1 = k
      · subst h1
        simp [dictInsert, List.lookup,
          show (m == k1) = false from beq_eq_false_iff_ne.mpr h]
      · rw [dictInsert, if_neg h1]
        by_cases h2 : m = k1
        · subst h2
          simp [List.lookup]
        · rw [List.lookup, show (m == k1) = false from beq_eq_false_iff_ne.mpr h2,
            List.lookup, show (m == k1) = false from beq_eq_false_iff_ne.mpr h2]
          exact ih

theorem keys_dictInsert {β : Type} (d : List (String × β)) (k : String) (v : β) :
    (dictInsert d k v).map Prod.fst =
      if k ∈ d.map Prod.fst then d.map Prod.fst else d.map Prod.fst ++ [k] := by
  induction d with
  | nil => simp [dictInsert]
  | cons hd tl ih =>
      obtain ⟨k1, v1⟩ := hd
      by_cases h : k1 = k
      · subst h
        simp [dictInsert]
      · rw [dictInsert, if_neg h]
        by_cases h2 : k ∈ tl.map Prod.fst <;>
          simp [ih, h2, Ne.symm h]

theorem keys_dictInsert_nodup {β : Type} (d : List (String × β)) (k : String) (v : β)
    (h : (d.map Prod.fst).Nodup) : ((dictInsert d k v).map Prod.fst).Nodup := by
  rw [keys_dictInsert]
  by_cases h2 : k ∈ d.map Prod.fst
  · rw [if_pos h2]
    exact h
  · rw [if_neg h2]
    simp [List.nodup_append, h, h2]

theorem mem_dictInsert {β : Type} (d : List (String × β)) (k : String) (v : β)
    (fv : String × β) (h : fv ∈ dictInsert d k v) : fv ∈ d ∨ fv = (k, v) := by
  induction d with
  | nil => simpa [dictInsert] using h
  | cons hd tl ih =>
      obtain ⟨k1, v1⟩ := hd
      by_cases h1 : k1 = k
      · subst h1
        rw [dictInsert, if_pos rfl] at h
        rcases List.mem_cons.mp h with rfl | h2
        · exact Or.inr rfl
        · exact Or.inl (List.mem_cons_of_mem _ h2)
      · rw [dictInsert, if_neg h1] at h
        rcases List.mem_cons.mp h with rfl | h2
        · exact Or.inl (List.mem_cons_self _ _)
        · rcases ih h2 with h3 | h3
          · exact Or.inl (List.mem_cons_of_mem _ h3)
          · exact Or.inr h3

theorem lookup_map_update {β : Type} (rows : List (String × β)) (pk : String) (g : β → β) :
    ((rows.map fun row => if row.1 = pk then (pk, g row.2) else row).lookup pk) =
      (rows.lookup pk).map g := by
  induction rows with
  | nil => rfl
  | cons hd tl ih =>
      obtain ⟨k1, v1⟩ := hd
      rw [List.map_cons]
      by_cases h : k1 = pk
      · subst h
        rw [if_pos rfl, lookup_cons_self, lookup_cons_self]
        rfl
      · rw [if_neg h, lookup_cons_ne _ _ _ _ (Ne.symm h),
          lookup_cons_ne _ _ _ _ (Ne.symm h)]
        exact ih

theorem lookup_map_update_ne {β : Type} (rows : List (String × β)) (pk m : String)
    (g : β → β) (h : m ≠ pk) :
    ((rows.map fun row => if row.1 = pk then (pk, g row.2) else row).lookup m) =
      rows.lookup m := by
  induction rows with
  | nil => rfl
  | cons hd tl ih =>
      obtain ⟨k1, v1⟩ := hd
      rw [List.map_cons]
      by_cases h1 : k1 = pk
      · subst h1
        rw [if_pos rfl, lookup_cons_ne _ _ _ _ h, lookup_cons_ne _ _ _ _ h]
        exact ih
      · rw [if_neg h1]
        by_cases h2 : m = k1
        · subst h2
          rw [lookup_cons_self, lookup_cons_self]
        · rw [lookup_cons_ne _ _ _ _ h2, lookup_cons_ne _ _ _ _ h2]
          exact ih

theorem keys_map_update {β : Type} (rows : List (String × β)) (pk : String) (g : β → β) :
    ((rows.map fun row => if row.1 = pk then (pk, g row.2) else row).map Prod.fst) =
      rows.map Prod.fst := by
  rw [List.map_map]
  refine List.map_congr_left fun row _ => ?_
  by_cases h : row.1 = pk <;> simp [h]

theorem lookup_append_of_none {β : Type} (l m : List (String × β)) (k : String)
    (h : l.lookup k = none) : ((l ++ m).lookup k) = m.lookup k := by
  induction l with
  | nil => rfl
  | cons hd tl ih =>
      obtain ⟨k1, v1⟩ := hd
      by_cases h1 : k = k1
      · subst h1
        simp [List.lookup] at h
      · rw [List.lookup, show (k == k1) = false from beq_eq_false_iff_ne.mpr h1] at h
        rw [List.cons_append, List.lookup,
          show (k == k1) = false from beq_eq_false_iff_ne.mpr h1]
        exact ih h

theorem lookup_append_single_ne {β : Type} (l : List (String × β)) (pk m : String)
    (row : β) (h : m ≠ pk) : ((l ++ [(pk, row)]).lookup m) = l.lookup m := by
  induction l with
  | nil =>
      simp [List.lookup, show (m == pk) = false from beq_eq_false_iff_ne.mpr h]
  | cons hd tl ih =>
      obtain ⟨k1, v1⟩ := hd
      by_cases h1 : m = k1
      · subst h1
        simp [List.lookup]
      · rw [List.cons_append, List.lookup,
          show (m == k1) = false from beq_eq_false_iff_ne.mpr h1,
          List.lookup, show (m == k1) = false from beq_eq_false_iff_ne.mpr h1]
        exact ih

theorem lookup_filter_ne_self {β : Type} (rows : List (String × β)) (pk : String) :
    ((rows.filter fun row => row.1 ≠ pk).lookup pk) = none := by
  rw [lookup_eq_none_iff]
  intro hmem
  obtain ⟨row, hrow, hfst⟩ := List.mem_map.mp hmem
  have h2 := (List.mem_filter.mp hrow).2
  rw [hfst] at h2
  simp at h2

theorem lookup_filter_ne_other {β : Type} (rows : List (String × β)) (pk m : String)
    (h : m ≠ pk) : ((rows.filter fun row => row.1 ≠ pk).lookup m) = rows.lookup m := by
  induction rows with
  | nil => rfl
  | cons hd tl ih =>
      obtain ⟨k1, v1⟩ := hd
      by_cases h1 : k1 = pk
      · subst h1
        rw [List.filter_cons_of_neg (by simp), List.lookup,
          show (m == k1) = false from beq_eq_false_iff_ne.mpr h]
        exact ih
      · rw [List.filter_cons_of_pos (by simpa using h1)]
        by_cases h2 : m = k1
        · subst h2
          simp [List.lookup]
        · rw [List.lookup, show (m == k1) = false from beq_eq_false_iff_ne.mpr h2,
            List.lookup, show (m == k1) = false from beq_eq_false_iff_ne.mpr h2]
          exact ih

theorem mem_keys_filter_ne {β : Type} (rows : List (String × β)) (pk m : String)
    (h : m ∈ ((rows.filter fun r0 => r0.1 ≠ pk).map Prod.fst)) : m ≠ pk := by
  obtain ⟨row, hrow, hfst⟩ := List.mem_map.mp h
  have h2 := (List.mem_filter.mp hrow).2
  rw [hfst] at h2
  simpa using h2

theorem filter_key_length_one {β : Type} (rows : List (String × β)) (id : String)
    (hn : (rows.map Prod.fst).Nodup) (hm : (rows.lookup id).isSome = true) :
    (rows.filter fun row => row.1 = id).length = 1 := by
  induction rows with
  | nil => simp [List.lookup] at hm
  | cons hd tl ih =>
      obtain ⟨k1, v1⟩ := hd
      simp only [List.map_cons, List.nodup_cons] at hn
      by_cases h : k1 = id
      · subst h
        have hnil : (tl.filter fun row => row.1 = k1) = [] := by
          refine List.filter_eq_nil_iff.mpr fun row hrow => ?_
          simp only [decide_eq_true_eq]
          intro heq
          exact hn.1 (heq ▸ List.mem_map_of_mem Prod.fst hrow)
        rw [List.filter_cons_of_pos (by simp), hnil]
        rfl
      · rw [List.lookup, show (id == k1) = false from beq_eq_false_iff_ne.mpr (Ne.symm h)] at hm
        rw [List.filter_cons_of_neg (by simpa using h)]
        exact ih hn.2 hm

theorem lookup_foldl_dictInsert_not_mem {β : Type} (fs : List (String × β)) :
    ∀ (init : List (String × β)) (f : String), f ∉ fs.map Prod.fst →
      ((fs.foldl (fun acc fv => dictInsert acc fv.1 fv.2) init).lookup f) =
        init.lookup f := by
  induction fs with
  | nil => intro init f _; rfl
  | cons hd tl ih =>
      intro init f hf
      simp only [List.map_cons, List.mem_cons, not_or] at hf
      rw [List.foldl_cons, ih _ _ hf.2, lookup_dictInsert_ne _ _ _ _ hf.1]

theorem lookup_foldl_dictInsert_mem {β : Type} (fs : List (String × β)) :
    ∀ (init : List (String × β)) (f : String), (fs.map Prod.fst).Nodup →
      f ∈ fs.map Prod.fst →
      ((fs.foldl (fun acc fv => dictInsert acc fv.1 fv.2) init).lookup f) =
        fs.lookup f := by
  induction fs with
  | nil => intro init f _ hf; simp at hf
  | cons hd tl ih =>
      intro init f hnd hf
      obtain ⟨k0, v0⟩ := hd
      rw [List.foldl_cons]
      simp only [List.map_cons, List.mem_cons] at hf
      simp only [List.map_cons, List.nodup_cons] at hnd
      by_cases h : f = k0
      · subst h
        rw [lookup_foldl_dictInsert_not_mem _ _ _ hnd.1, lookup_dictInsert_self]
        simp [List.lookup]
      · rw [ih _ _ hnd.2 (hf.resolve_left h), List.lookup,
          show (f == k0) = false from beq_eq_false_iff_ne.mpr h]

theorem lookup_map_snd {β γ : Type} (g : β → γ) (d : List (String × β)) (f : String) :
    ((d.map fun fv => (fv.1, g fv.2)).lookup f) = (d.lookup f).map g := by
  induction d with
  | nil => rfl
  | cons hd tl ih =>
      obtain ⟨k1, v1⟩ := hd
      by_cases h : f = k1
      · subst h
        simp [List.lookup]
      · rw [List.map_cons, List.lookup,
          show (f == k1) = false from beq_eq_false_iff_ne.mpr h,
          List.lookup, show (f == k1) = false from beq_eq_false_iff_ne.mpr h]
        exact ih

theorem upsertUtils_rows_lookup_self (t : SqliteTable) (pk : String)
    (fs : List (String × DbVal)) :
    ((t.upsertUtils pk fs).rows.lookup pk) =
      some (match t.rows.lookup pk with
            | some old => mergeRow old fs
            | none => fs) := by
  rw [SqliteTable.upsertUtils]
  cases hk : t.rows.lookup pk with
  | none =>
      simp only [hk, Option.isSome_none, Bool.false_eq_true, if_false]
      rw [lookup_append_of_none _ _ _ hk, lookup_cons_self]
  | some old =>
      simp only [hk, Option.isSome_some, if_true]
      rw [lookup_map_update t.rows pk fun old => mergeRow old fs, hk]
      rfl

theorem upsertUtils_rows_lookup_ne (t : SqliteTable) (pk m : String)
    (fs : List (String × DbVal)) (h : m ≠ pk) :
    ((t.upsertUtils pk fs).rows.lookup m) = t.rows.lookup m := by
  rw [SqliteTable.upsertUtils]
  by_cases hk : (t.rows.lookup pk).isSome
  · simp only [hk, if_true]
    exact lookup_map_update_ne t.rows pk m (fun old => mergeRow old fs) h
  · rw [if_neg hk]
    exact lookup_append_single_ne _ _ _ _ h

theorem upsertUtils_keys_nodup (t : SqliteTable) (pk : String)
    (fs : List (String × DbVal)) (h : (t.rows.map Prod.fst).Nodup) :
    (((t.upsertUtils pk fs).rows).map Prod.fst).Nodup := by
  rw [SqliteTable.upsertUtils]
  by_cases hk : (t.rows.lookup pk).isSome
  · simp only [hk, if_true]
    rw [keys_map_update t.rows pk fun old => mergeRow old fs]
    exact h
  · rw [if_neg hk]
    have hpk : pk ∉ t.rows.map Prod.fst := by
      rw [← lookup_eq_none_iff]
      cases hkk : t.rows.lookup pk
      · rfl
      · rw [hkk] at hk
        simp at hk
    simp [List.nodup_append, h, hpk]

theorem foldl_upsertUtils_keys_nodup (batch : List Record) :
    ∀ t : SqliteTable, (t.rows.map Prod.fst).Nodup →
      ((((batch.foldl (fun t x => t.upsertUtils x.id (processFieldsUtils x)) t).rows).map
        Prod.fst).Nodup) := by
  induction batch with
  | nil => intro t h; exact h
  | cons x rest ih =>
      intro t h
      rw [List.foldl_cons]
      exact ih _ (upsertUtils_keys_nodup _ _ _ h)

theorem foldl_upsertUtils_lookup_ne (batch : List Record) :
    ∀ (t : SqliteTable) (id : String), (∀ x ∈ batch, x.id ≠ id) →
      (((batch.foldl (fun t x => t.upsertUtils x.id (processFieldsUtils x)) t).rows).lookup
        id) = t.rows.lookup id := by
  induction batch with
  | nil => intro t id _; rfl
  | cons x rest ih =>
      intro t id h
      rw [List.foldl_cons, ih _ _ fun y hy => h y (List.mem_cons_of_mem _ hy),
        upsertUtils_rows_lookup_ne _ _ _ _ (Ne.symm (h x (List.mem_cons_self _ _)))]

theorem keys_processFieldsUtils (r : Record) :
    (processFieldsUtils r).map Prod.fst =
      (dictInsert r.fields "id" (.scalar (.str r.id))).map Prod.fst := by
  rw [processFieldsUtils, List.map_map]
  exact List.map_congr_left fun fv _ => rfl

theorem processFieldsUtils_keys_nodup (r : Record)
    (h : (r.fields.map Prod.fst).Nodup) :
    ((processFieldsUtils r).map Prod.fst).Nodup := by
  rw [keys_processFieldsUtils]
  exact keys_dictInsert_nodup _ _ _ h

theorem lookup_processFieldsUtils_id (r : Record) :
    (processFieldsUtils r).lookup "id" = some (.str r.id) := by
  rw [processFieldsUtils, lookup_map_snd, lookup_dictInsert_self]
  rfl

theorem lookup_processFieldsUtils_field (r : Record) (f : String) (v : Scalar)
    (hid : "id" ∉ r.fields.map Prod.fst)
    (hf : r.fields.lookup f = some (.scalar v)) :
    (processFieldsUtils r).lookup f = some v := by
  have hfne : f ≠ "id" := by
    rintro rfl
    rw [(lookup_eq_none_iff _ _).mpr hid] at hf
    cases hf
  rw [processFieldsUtils, lookup_map_snd, lookup_dictInsert_ne _ _ _ _ hfne, hf]
  rfl

theorem foldl_upsertUtils_lookup_mem (batch : List Record) :
    ∀ (t : SqliteTable) (r : Record), r ∈ batch →
      (batch.map Record.id).Nodup →
      (∀ x ∈ batch, (x.fields.map Prod.fst).Nodup) →
      ∃ row,
        (((batch.foldl (fun t x => t.upsertUtils x.id (processFieldsUtils x)) t).rows).lookup
          r.id) = some row ∧
        ∀ f w, (processFieldsUtils r).lookup f = some w → row.lookup f = some w := by
  induction batch with
  | nil =>
      intro t r hr
      cases hr
  | cons x rest ih =>
      intro t r hr hnd hfnd
      simp only [List.map_cons, List.nodup_cons] at hnd
      rw [List.foldl_cons]
      rcases List.mem_cons.mp hr with rfl | hr2
      · have hne : ∀ y ∈ rest, y.id ≠ r.id := by
          intro y hy heq
          exact hnd.1 (heq ▸ List.mem_map_of_mem Record.id hy)
        rw [foldl_upsertUtils_lookup_ne rest _ _ hne, upsertUtils_rows_lookup_self]
        refine ⟨_, rfl, ?_⟩
        intro f w hfw
        have hfin : f ∈ (processFieldsUtils r).map Prod.fst :=
          (lookup_isSome_iff _ _).mp (by rw [hfw]; rfl)
        have hpnd : ((processFieldsUtils r).map Prod.fst).Nodup :=
          processFieldsUtils_keys_nodup r (hfnd r (List.mem_cons_self _ _))
        cases hk : t.rows.lookup r.id with
        | none =>
            simp only [hk]
            exact hfw
        | some old =>
            simp only [hk]
            rw [mergeRow, lookup_foldl_dictInsert_mem _ _ _ hpnd hfin]
            exact hfw
      · exact ih _ r hr2 hnd.2 fun y hy => hfnd y (List.mem_cons_of_mem _ hy)

theorem write_sqlite_utils_spec (db : SqliteDb) (records : List Record) (tname : String)
    (r : Record) (hr : r ∈ records)
    (hids : (records.map Record.id).Nodup)
    (hfnd : ∀ x ∈ records, (x.fields.map Prod.fst).Nodup)
    (hid : "id" ∉ r.fields.map Prod.fst)
    (hnodup0 : ((((db.tables.lookup (sqliteSafeTableName tname)).getD
        { cols := [], rows := [] }).rows).map Prod.fst).Nodup) :
    ∃ tbl, (write_sqlite_utils db records tname).tables.lookup
        (sqliteSafeTableName tname) = some tbl ∧
      ((tbl.rows.map Prod.fst).Nodup) ∧
      (tbl.rows.filter fun row => row.1 = r.id).length = 1 ∧
      ∃ row, tbl.rows.lookup r.id = some row ∧
        row.lookup "id" = some (.str r.id) ∧
        ∀ f v, r.fields.lookup f = some (.scalar v) → row.lookup f = some v := by
  simp only [write_sqlite_utils]
  rw [lookup_dictInsert_self]
  refine ⟨_, rfl, foldl_upsertUtils_keys_nodup _ _ hnodup0, ?_, ?_⟩
  · obtain ⟨row, hrow, -⟩ := foldl_upsertUtils_lookup_mem records _ r hr hids hfnd
    exact filter_key_length_one _ _ (foldl_upsertUtils_keys_nodup _ _ hnodup0)
      (by rw [hrow]; rfl)
  · obtain ⟨row, hrow, hprop⟩ := foldl_upsertUtils_lookup_mem records _ r hr hids hfnd
    exact ⟨row, hrow, hprop "id" (.str r.id) (lookup_processFieldsUtils_id r),
      fun f v hfv => hprop f v (lookup_processFieldsUtils_field r f v hid hfv)⟩

theorem insertOrReplace_rows_lookup_self (t : SqliteTable) (pk : String)
    (row : List (String × DbVal)) :
    ((t.insertOrReplace pk row).rows.lookup pk) = some row := by
  show (((t.rows.filter fun r0 => r0.1 ≠ pk) ++ [(pk, row)]).lookup pk) = some row
  rw [lookup_append_of_none _ _ _ (lookup_filter_ne_self _ _), lookup_cons_self]

theorem insertOrReplace_rows_lookup_ne (t : SqliteTable) (pk m : String)
    (row : List (String × DbVal)) (h : m ≠ pk) :
    ((t.insertOrReplace pk row).rows.lookup m) = t.rows.lookup m := by
  show (((t.rows.filter fun r0 => r0.1 ≠ pk) ++ [(pk, row)]).lookup m) = _
  rw [lookup_append_single_ne _ _ _ _ h, lookup_filter_ne_other _ _ _ h]

theorem insertOrReplace_keys_nodup (t : SqliteTable) (pk : String)
    (row : List (String × DbVal)) (h : (t.rows.map Prod.fst).Nodup) :
    (((t.insertOrReplace pk row).rows).map Prod.fst).Nodup := by
  show (((t.rows.filter fun r0 => r0.1 ≠ pk) ++ [(pk, row)]).map Prod.fst).Nodup
  rw [List.map_append]
  refine List.Nodup.append
    (List.Nodup.sublist (List.Sublist.map Prod.fst (List.filter_sublist _)) h)
    (List.nodup_singleton pk) ?_
  intro x hx hy
  rw [List.map_cons, List.map_nil] at hy
  rcases List.mem_singleton.mp hy with rfl
  exact (mem_keys_filter_ne _ _ _ hx) rfl

theorem foldl_insertOrReplace_cols (fieldnames : List String) (batch : List Record) :
    ∀ t : SqliteTable,
      ((batch.foldl (fun t x => t.insertOrReplace x.id (fallbackRow fieldnames x)) t).cols) =
        t.cols := by
  induction batch with
  | nil => intro t; rfl
  | cons x rest ih =>
      intro t
      rw [List.foldl_cons, ih]
      rfl

theorem foldl_insertOrReplace_keys_nodup (fieldnames : List String) (batch : List Record) :
    ∀ t : SqliteTable, (t.rows.map Prod.fst).Nodup →
      ((((batch.foldl (fun t x => t.insertOrReplace x.id (fallbackRow fieldnames x)) t).rows).map
        Prod.fst).Nodup) := by
  induction batch with
  | nil => intro t h; exact h
  | cons x rest ih =>
      intro t h
      rw [List.foldl_cons]
      exact ih _ (insertOrReplace_keys_nodup _ _ _ h)

theorem foldl_insertOrReplace_lookup_ne (fieldnames : List String) (batch : List Record) :
    ∀ (t : SqliteTable) (id : String), (∀ x ∈ batch, x.id ≠ id) →
      (((batch.foldl (fun t x => t.insertOrReplace x.id (fallbackRow fieldnames x)) t).rows).lookup
        id) = t.rows.lookup id := by
  induction batch with
  | nil => intro t id _; rfl
  | cons x rest ih =>
      intro t id h
      rw [List.foldl_cons, ih _ _ fun y hy => h y (List.mem_cons_of_mem _ hy),
        insertOrReplace_rows_lookup_ne _ _ _ _ (Ne.symm (h x (List.mem_cons_self _ _)))]

theorem foldl_insertOrReplace_lookup_mem (fieldnames : List String) (batch : List Record) :
    ∀ (t : SqliteTable) (r : Record), r ∈ batch → (batch.map Record.id).Nodup →
      (((batch.foldl (fun t x => t.insertOrReplace x.id (fallbackRow fieldnames x)) t).rows).lookup
        r.id) = some (fallbackRow fieldnames r) := by
  induction batch with
  | nil =>
      intro t r hr
      cases hr
  | cons x rest ih =>
      intro t r hr hnd
      simp only [List.map_cons, List.nodup_cons] at hnd
      rw [List.foldl_cons]
      rcases List.mem_cons.mp hr with rfl | hr2
      · have hne : ∀ y ∈ rest, y.id ≠ r.id := fun y hy heq =>
          hnd.1 (heq ▸ List.mem_map_of_mem Record.id hy)
        rw [foldl_insertOrReplace_lookup_ne _ rest _ _ hne, insertOrReplace_rows_lookup_self]
      · exact ih _ r hr2 hnd.2

theorem lookup_fill_of_isSome (fieldnames : List String) :
    ∀ (acc : List (String × Value)) (f : String), (acc.lookup f).isSome = true →
      ((fieldnames.foldl
        (fun acc fn => if (acc.lookup fn).isSome then acc else dictInsert acc fn (.scalar .null))
        acc).lookup f) = acc.lookup f := by
  induction fieldnames with
  | nil => intro acc f _; rfl
  | cons fn rest ih =>
      intro acc f hf
      rw [List.foldl_cons]
      by_cases h : (acc.lookup fn).isSome
      · rw [if_pos h]
        exact ih _ _ hf
      · rw [if_neg h]
        have hne : fn ≠ f := by
          rintro rfl
          exact h hf
        have hf2 : ((dictInsert acc fn (.scalar .null)).lookup f).isSome = true := by
          rw [lookup_dictInsert_ne _ _ _ _ (Ne.symm hne)]
          exact hf
        rw [ih _ _ hf2, lookup_dictInsert_ne _ _ _ _ (Ne.symm hne)]

theorem mem_foldl_fill (fieldnames : List String) :
    ∀ (acc : List (String × Value)) (fv : String × Value),
      fv ∈ fieldnames.foldl
        (fun acc fn => if (acc.lookup fn).isSome then acc else dictInsert acc fn (.scalar .null))
        acc →
      fv ∈ acc ∨ fv.2 = .scalar .null := by
  induction fieldnames with
  | nil => intro acc fv h; exact Or.inl h
  | cons fn rest ih =>
      intro acc fv h
      rw [List.foldl_cons] at h
      by_cases hs : (acc.lookup fn).isSome
      · rw [if_pos hs] at h
        exact ih _ _ h
      · rw [if_neg hs] at h
        rcases ih _ _ h with h2 | h2
        · rcases mem_dictInsert _ _ _ _ h2 with h3 | h3
          · exact Or.inl h3
          · right
            rw [h3]
        · exact Or.inr h2

theorem mem_keys_foldl_fill (fieldnames : List String) :
    ∀ (acc : List (String × Value)) (m : String),
      m ∈ ((fieldnames.foldl
        (fun acc fn => if (acc.lookup fn).isSome then acc else dictInsert acc fn (.scalar .null))
        acc).map Prod.fst) →
      m ∈ acc.map Prod.fst ∨ m ∈ fieldnames := by
  induction fieldnames with
  | nil => intro acc m h; exact Or.inl h
  | cons fn rest ih =>
      intro acc m h
      rw [List.foldl_cons] at h
      by_cases hs : (acc.lookup fn).isSome
      · rw [if_pos hs] at h
        rcases ih _ _ h with h2 | h2
        · exact Or.inl h2
        · exact Or.inr (List.mem_cons_of_mem _ h2)
      · rw [if_neg hs] at h
        rcases ih _ _ h with h2 | h2
        · rcases mem_keys_dictInsert.mp h2 with rfl | h3
          · exact Or.inr (List.mem_cons_self _ _)
          · exact Or.inl h3
        · exact Or.inr (List.mem_cons_of_mem _ h2)

theorem lookup_fallbackRowDict_id (fieldnames : List String) (r : Record) :
    (fallbackRowDict fieldnames r).lookup "id" = some (.scalar (.str r.id)) := by
  rw [fallbackRowDict,
    lookup_fill_of_isSome _ _ _ (by rw [lookup_dictInsert_self]; rfl),
    lookup_dictInsert_self]

theorem lookup_fallbackRowDict_field (fieldnames : List String) (r : Record)
    (f : String) (v : Value) (hid : "id" ∉ r.fields.map Prod.fst)
    (hf : r.fields.lookup f = some v) :
    (fallbackRowDict fieldnames r).lookup f = some v := by
  have hfne : f ≠ "id" := by
    rintro rfl
    rw [(lookup_eq_none_iff _ _).mpr hid] at hf
    cases hf
  rw [fallbackRowDict,
    lookup_fill_of_isSome _ _ _
      (by rw [lookup_dictInsert_ne _ _ _ _ hfne, hf]; rfl),
    lookup_dictInsert_ne _ _ _ _ hfne, hf]

theorem lookup_fallbackRow_id (fieldnames : List String) (r : Record) :
    (fallbackRow fieldnames r).lookup "id" = some (.str r.id) := by
  rw [fallbackRow, lookup_map_snd Value.toCell, lookup_fallbackRowDict_id]
  rfl

theorem lookup_fallbackRow_field (fieldnames : List String) (r : Record)
    (f : String) (v : Scalar) (hid : "id" ∉ r.fields.map Prod.fst)
    (hf : r.fields.lookup f = some (.scalar v)) :
    (fallbackRow fieldnames r).lookup f = some v := by
  rw [fallbackRow, lookup_map_snd Value.toCell,
    lookup_fallbackRowDict_field _ _ _ _ hid hf]
  rfl

theorem mem_sqliteFieldnames_of_field (records : List Record) (r : Record)
    (hr : r ∈ records) (f : String) (hf : f ∈ r.fields.map Prod.fst) :
    f ∈ sqliteFieldnames records := by
  rw [sqliteFieldnames, List.mem_dedup, List.mem_flatten]
  exact ⟨r.fields.map Prod.fst, List.mem_map.mpr ⟨r, hr, rfl⟩, hf⟩

theorem fallback_rowsOk_true (records : List Record) (cols : List String)
    (hidcol : "id" ∈ cols)
    (hcols : ∀ f ∈ sqliteFieldnames records, f ∈ cols)
    (hbind : ∀ x ∈ records, ∀ fv ∈ x.fields, fv.2.bindable = true) :
    (records.all fun r =>
      (fallbackRowDict (sqliteFieldnames records) r).all fun fv =>
        cols.contains fv.1 && fv.2.bindable) = true := by
  rw [List.all_eq_true]
  intro r hr
  rw [List.all_eq_true]
  intro fv hfv
  rw [Bool.and_eq_true]
  constructor
  · have hkey : fv.1 ∈ (fallbackRowDict (sqliteFieldnames records) r).map Prod.fst :=
      List.mem_map_of_mem Prod.fst hfv
    rw [fallbackRowDict] at hkey
    have hmem : fv.1 ∈ cols := by
      rcases mem_keys_foldl_fill _ _ _ hkey with h1 | h1
      · rcases mem_keys_dictInsert.mp h1 with h2 | h2
        · rw [h2]
          exact hidcol
        · exact hcols _ (mem_sqliteFieldnames_of_field records r hr _ h2)
      · exact hcols _ h1
    simpa using hmem
  · rw [fallbackRowDict] at hfv
    rcases mem_foldl_fill _ _ _ hfv with h1 | h1
    · rcases mem_dictInsert _ _ _ _ h1 with h2 | h2
      · exact hbind r hr fv h2
      · rw [h2]
        rfl
    · rw [h1]
      rfl

theorem write_sqlite_fallback_spec (db : SqliteDb) (records : List Record)
    (tname : String) (t0 : SqliteTable)
    (ht0 : (db.tables.lookup (sqliteSafeTableName tname)).getD
      { cols := "id" :: pySorted (sqliteFieldnames records), rows := [] } = t0)
    (r : Record) (hr : r ∈ records)
    (hids : (records.map Record.id).Nodup)
    (hid : "id" ∉ r.fields.map Prod.fst)
    (hbind : ∀ x ∈ records, ∀ fv ∈ x.fields, fv.2.bindable = true)
    (hnodup0 : (t0.rows.map Prod.fst).Nodup)
    (hidcol : "id" ∈ t0.cols)
    (hcols : ∀ f ∈ sqliteFieldnames records, f ∈ t0.cols) :
    ∃ tbl, (write_sqlite_fallback db records tname).tables.lookup
        (sqliteSafeTableName tname) = some tbl ∧
      tbl.cols = t0.cols ∧
      (tbl.rows.map Prod.fst).Nodup ∧
      (tbl.rows.filter fun row => row.1 = r.id).length = 1 ∧
      ∃ row, tbl.rows.lookup r.id = some row ∧
        row.lookup "id" = some (.str r.id) ∧
        ∀ f v, r.fields.lookup f = some (.scalar v) → row.lookup f = some v := by
  have hok := fallback_rowsOk_true records t0.cols hidcol hcols hbind
  simp only [write_sqlite_fallback, ht0]
  rw [hok]
  simp only [if_true]
  rw [lookup_dictInsert_self]
  refine ⟨_, rfl, foldl_insertOrReplace_cols _ _ _,
    foldl_insertOrReplace_keys_nodup _ _ _ hnodup0, ?_, ?_⟩
  · exact filter_key_length_one _ _ (foldl_insertOrReplace_keys_nodup _ _ _ hnodup0)
      (by rw [foldl_insertOrReplace_lookup_mem _ _ _ _ hr hids]; rfl)
  · exact ⟨_, foldl_insertOrReplace_lookup_mem _ _ _ _ hr hids,
      lookup_fallbackRow_id _ r,
      fun f v hfv => lookup_fallbackRow_field _ r f v hid hfv⟩

theorem write_sqlite_fallback_tables (db : SqliteDb) (records : List Record)
    (tname : String) (t0 : SqliteTable)
    (ht0 : (db.tables.lookup (sqliteSafeTableName tname)).getD
      { cols := "id" :: pySorted (sqliteFieldnames records), rows := [] } = t0)
    (hok : (records.all fun r =>
      (fallbackRowDict (sqliteFieldnames records) r).all fun fv =>
        t0.cols.contains fv.1 && fv.2.bindable) = true) :
    write_sqlite_fallback db records tname =
      { tables := dictInsert db.tables (sqliteSafeTableName tname)
          (records.foldl
            (fun t x => t.insertOrReplace x.id (fallbackRow (sqliteFieldnames records) x))
            t0) } := by
  simp only [write_sqlite_fallback, ht0]
  rw [hok]
  simp only [if_true]

/-- C5: the row store is keyed on `id` and a write is an upsert, never an
append — in both SQLite paths (the `sqlite_utils` upserts and the sqlite3
fallback's `INSERT OR REPLACE`).  After flushing `batch1` and then
`batch2` into the same initially fresh database file, every record of
`batch2` has exactly one row under its id, and that row holds the most
recently flushed field values — those of the `batch2` record — whatever
`batch1` wrote under the same id.  The `u = false` hypotheses state the
conditions under which the fallback flush commits: scalar field values
only and no columns beyond the first flush's schema. -/
theorem c5_sqlite_upsert (u : Bool) (tname : String) (batch1 batch2 : List Record)
    (r : Record) (hr : r ∈ batch2)
    (hids2 : (batch2.map Record.id).Nodup)
    (hfnd : ∀ x ∈ batch2, (x.fields.map Prod.fst).Nodup)
    (hid : "id" ∉ r.fields.map Prod.fst)
    (hbind : u = false → ∀ x ∈ batch1 ++ batch2, ∀ fv ∈ x.fields, fv.2.bindable = true)
    (hschema : u = false →
      (sqliteFieldnames batch2 ⊆ sqliteFieldnames batch1 ∨ batch1 = [])) :
    ∃ tbl, (write_sqlite u (write_sqlite u SqliteDb.empty batch1 tname) batch2
        tname).tables.lookup (sqliteSafeTableName tname) = some tbl ∧
      (tbl.rows.filter fun row => row.1 = r.id).length = 1 ∧
      ∃ row, tbl.rows.lookup r.id = some row ∧
        row.lookup "id" = some (.str r.id) ∧
        ∀ f v, r.fields.lookup f = some (.scalar v) → row.lookup f = some v := by
  have hne2 : batch2.isEmpty = false := by
    cases batch2 with
    | nil => cases hr
    | cons a l => rfl
  cases u with
  | true =>
      have hdisp2 : write_sqlite true (write_sqlite true SqliteDb.empty batch1 tname)
          batch2 tname =
          write_sqlite_utils (write_sqlite true SqliteDb.empty batch1 tname) batch2 tname := by
        simp [write_sqlite, hne2]
      have hpre : ((((write_sqlite true SqliteDb.empty batch1 tname).tables.lookup
          (sqliteSafeTableName tname)).getD
            { cols := [], rows := [] }).rows.map Prod.fst).Nodup := by
        cases hb1 : batch1.isEmpty with
        | true =>
            simp only [write_sqlite, hb1, if_true]
            simp [SqliteDb.empty, List.lookup]
        | false =>
            simp only [write_sqlite, hb1, Bool.false_eq_true, if_false, if_true,
              write_sqlite_utils]
            rw [lookup_dictInsert_self]
            exact foldl_upsertUtils_keys_nodup _ _ (by simp [SqliteDb.empty, List.lookup])
      rw [hdisp2]
      obtain ⟨tbl, h1, -, h3, h4⟩ :=
        write_sqlite_utils_spec _ batch2 tname r hr hids2 hfnd hid hpre
      exact ⟨tbl, h1, h3, h4⟩
  | false =>
      have hbind2 := hbind rfl
      have hdisp2 : write_sqlite false (write_sqlite false SqliteDb.empty batch1 tname)
          batch2 tname =
          write_sqlite_fallback (write_sqlite false SqliteDb.empty batch1 tname)
            batch2 tname := by
        simp [write_sqlite, hne2]
      rw [hdisp2]
      cases hb1 : batch1.isEmpty with
      | true =>
          have hdb1 : write_sqlite false SqliteDb.empty batch1 tname = SqliteDb.empty := by
            simp only [write_sqlite, hb1, if_true]
          rw [hdb1]
          obtain ⟨tbl, h1, -, -, h4, h5⟩ := write_sqlite_fallback_spec SqliteDb.empty
            batch2 tname
            { cols := "id" :: pySorted (sqliteFieldnames batch2), rows := [] }
            rfl r hr hids2 hid
            (fun x hx => hbind2 x (List.mem_append_right _ hx))
            (by simp) (List.mem_cons_self _ _)
            (fun f hf => List.mem_cons_of_mem _ ((mem_pySorted _ _).mpr hf))
          exact ⟨tbl, h1, h4, h5⟩
      | false =>
          have hsub : sqliteFieldnames batch2 ⊆ sqliteFieldnames batch1 := by
            rcases hschema rfl with h | h
            · exact h
            · rw [h] at hb1
              simp at hb1
          have hok1 := fallback_rowsOk_true batch1
            ({ cols := "id" :: pySorted (sqliteFieldnames batch1),
               rows := ([] : List (String × List (String × DbVal))) } : SqliteTable).cols
            (List.mem_cons_self _ _)
            (fun f hf => List.mem_cons_of_mem _ ((mem_pySorted _ _).mpr hf))
            (fun x hx => hbind2 x (List.mem_append_left _ hx))
          have hdb1 : write_sqlite false SqliteDb.empty batch1 tname =
              { tables := dictInsert SqliteDb.empty.tables (sqliteSafeTableName tname)
                  (batch1.foldl
                    (fun t x => t.insertOrReplace x.id
                      (fallbackRow (sqliteFieldnames batch1) x))
                    { cols := "id" :: pySorted (sqliteFieldnames batch1), rows := [] }) } := by
            simp only [write_sqlite, hb1, Bool.false_eq_true, if_false]
            exact write_sqlite_fallback_tables SqliteDb.empty batch1 tname _ rfl hok1
          obtain ⟨tbl, h1, -, -, h4, h5⟩ := write_sqlite_fallback_spec
            (write_sqlite false SqliteDb.empty batch1 tname) batch2 tname
            (batch1.foldl
              (fun t x => t.insertOrReplace x.id (fallbackRow (sqliteFieldnames batch1) x))
              { cols := "id" :: pySorted (sqliteFieldnames batch1), rows := [] })
            (by
              rw [hdb1]
              show ((dictInsert SqliteDb.empty.tables (sqliteSafeTableName tname)
                _).lookup (sqliteSafeTableName tname)).getD _ = _
              rw [lookup_dictInsert_self]
              rfl)
            r hr hids2 hid
            (fun x hx => hbind2 x (List.mem_append_right _ hx))
            (foldl_insertOrReplace_keys_nodup _ _ _ (by simp))
            (by
              rw [foldl_insertOrReplace_cols]
              exact List.mem_cons_self _ _)
            (fun f hf => by
              rw [foldl_insertOrReplace_cols]
              exact List.mem_cons_of_mem _ ((mem_pySorted _ _).mpr (hsub hf)))
          exact ⟨tbl, h1, h4, h5⟩

/-- Closed instance of C5: re-flushing record id `rec1` with an updated
value leaves exactly one row for it. -/
theorem c5_sqlite_upsert_witness :
    ∃ tbl, (write_sqlite false (write_sqlite false SqliteDb.empty [rec1] "Tasks")
        [rec1b] "Tasks").tables.lookup (sqliteSafeTableName "Tasks") = some tbl ∧
      (tbl.rows.filter fun row => row.1 = rec1b.id).length = 1 := by
  obtain ⟨tbl, h1, h2, -⟩ := c5_sqlite_upsert false "Tasks" [rec1] [rec1b] rec1b
    (List.mem_cons_self _ _) (by decide) (by decide) (by decide)
    (fun _ => by decide) (fun _ => Or.inl (by decide))
  exact ⟨tbl, h1, h2⟩

end AirtableBackup
